import Mathlib

/-
Verification of the `ovo` template-instantiation engine specification against
the repository. The repository ships four template fixtures (C and C++ starter
files containing placeholder tokens of the form double-brace KEY double-brace);
the engine itself (loader, resolver, substitution engine, materializer) is
described only by the specification, so it is modelled here from the
specification's words, while the fixtures and the sample application logic in
them are embedded from the source files.
-/

set_option maxRecDepth 20000

namespace Ovo

/-- Opening brace character. -/
def lbrace : Char := Char.ofNat 123

/-- Closing brace character. -/
def rbrace : Char := Char.ofNat 125

/-- Newline character. -/
def newline : Char := Char.ofNat 10

/-- Underscore character. -/
def underscore : Char := Char.ofNat 95

/-- Hyphen character. -/
def hyphen : Char := Char.ofNat 45

/-- One template entry: a relative path and the file's content. -/
structure Entry where
  path : String
  content : String
  deriving DecidableEq

/-- Error raised when a template references a key absent from the
variable table; it carries the offending key and the entry's file path. -/
structure UnresolvedTokenError where
  key : String
  path : String
  deriving DecidableEq

/-- Modelled from the spec: the error kinds of §7 that the engine model uses
(`LoadError` concerns the filesystem walk, which is outside the shallow
embedding; the remaining kinds are represented). -/
inductive EngineError where
  | invalidName (name : String)
  | unresolved (u : UnresolvedTokenError)
  | writeError (path : String) (reason : String)
  deriving DecidableEq

/-- Lookup of a key in the variable table (an association list). -/
def lookupVar (k : String) : List (String × String) → Option String
  | [] => none
  | (k2, v) :: rest => if k == k2 then some v else lookupVar k rest

/-- Modelled from the spec: the Substitution Engine of §4.3, which is not part
of the repository's source files (only its template fixtures are). Fuel-indexed
single pass over the characters of one string: every occurrence of a
double-brace KEY double-brace token whose key is in the table is replaced by
the table's value for KEY, and the substituted value is never re-scanned; a
token whose key is absent, or a double-brace opener never properly closed, is
an `UnresolvedTokenError` carrying the key text and the entry's path. -/
def substCharsF (table : List (String × String)) (path : String) :
    Nat → List Char → Except UnresolvedTokenError (List Char)
  | 0, _ => Except.ok []
  | _ + 1, [] => Except.ok []
  | _ + 1, [c] => Except.ok [c]
  | fuel + 1, c :: c2 :: cs2 =>
    if c == lbrace && c2 == lbrace then
      let key := List.takeWhile (fun x => x != rbrace) cs2
      let rest := List.dropWhile (fun x => x != rbrace) cs2
      match rest with
      | _ :: r2 :: tail =>
        if r2 == rbrace then
          match lookupVar (String.mk key) table with
          | some v => Except.map (fun t => v.toList ++ t) (substCharsF table path fuel tail)
          | none => Except.error ⟨String.mk key, path⟩
        else Except.error ⟨String.mk key, path⟩
      | _ => Except.error ⟨String.mk key, path⟩
    else Except.map (fun t => c :: t) (substCharsF table path fuel (c2 :: cs2))

/-- Single-pass substitution over a character list (fuel instantiated so that
it always suffices). -/
def substChars (table : List (String × String)) (path : String)
    (cs : List Char) : Except UnresolvedTokenError (List Char) :=
  substCharsF table path (cs.length + 1) cs

/-- Modelled from the spec: the token scanner implicit in §4.3 and §3 — the
list of placeholder keys occurring in a string, in order; `none` when a
double-brace opener is never properly closed. -/
def scanTokensF : Nat → List Char → Option (List String)
  | 0, _ => some []
  | _ + 1, [] => some []
  | _ + 1, [_] => some []
  | fuel + 1, c :: c2 :: cs2 =>
    if c == lbrace && c2 == lbrace then
      let key := List.takeWhile (fun x => x != rbrace) cs2
      let rest := List.dropWhile (fun x => x != rbrace) cs2
      match rest with
      | _ :: r2 :: tail =>
        if r2 == rbrace then
          Option.map (fun ks => String.mk key :: ks) (scanTokensF fuel tail)
        else none
      | _ => none
    else scanTokensF fuel (c2 :: cs2)

/-- Token keys of a character list. -/
def scanTokens (cs : List Char) : Option (List String) :=
  scanTokensF (cs.length + 1) cs

/-- Modelled from the spec: substitution applied to one entry, on both its
path string and its content (§4.3); errors report the entry's template path. -/
def substituteEntry (table : List (String × String)) (e : Entry) :
    Except UnresolvedTokenError Entry :=
  match substChars table e.path e.path.toList with
  | Except.error u => Except.error u
  | Except.ok p =>
    match substChars table e.path e.content.toList with
    | Except.error u => Except.error u
    | Except.ok c => Except.ok ⟨String.mk p, String.mk c⟩

/-- Token keys of an entry: keys in its path followed by keys in its content
(`none` when some opener is malformed). -/
def entryTokens (e : Entry) : Option (List String) :=
  match scanTokens e.path.toList, scanTokens e.content.toList with
  | some a, some b => some (a ++ b)
  | _, _ => none

/-- Modelled from the spec: the identifier charset of §4.2 — letters, digits,
hyphen, underscore. -/
def isNameChar (c : Char) : Bool :=
  c.isAlpha || c.isDigit || c == hyphen || c == underscore

/-- Modelled from the spec: canonical-name validation of §4.2 — identifier
charset, starting with a letter. -/
def validName (n : String) : Bool :=
  match n.toList with
  | [] => false
  | c :: cs => c.isAlpha && cs.all isNameChar

/-- Modelled from the spec: the per-character step of the PROJECT_NAME_UPPER
derivation — all-caps with non-identifier characters normalized to
underscore (§4.2). -/
def upperNameChar (c : Char) : Char :=
  if c.isAlpha || c.isDigit then c.toUpper else underscore

/-- Modelled from the spec: the PROJECT_NAME_UPPER derivation. -/
def deriveUpper (n : String) : String :=
  String.mk (n.toList.map upperNameChar)

/-- Modelled from the spec: the per-character step of the snake_case
derivation for non-leading characters — an underscore is inserted before each
interior uppercase letter, everything is lowercased, a hyphen becomes an
underscore. -/
def snakeChar (c : Char) : List Char :=
  if c.isUpper then [underscore, c.toLower]
  else if c == hyphen then [underscore]
  else [c]

/-- Modelled from the spec: the PROJECT_NAME_SNAKE derivation of §4.2, a
deterministic case-normalizing function of the canonical name. -/
def deriveSnake (n : String) : String :=
  match n.toList with
  | [] => String.mk []
  | c :: cs => String.mk (c.toLower :: (cs.map snakeChar).flatten)

/-- Modelled from the spec: the VariableTable built once per run from the
canonical name (§4.2, §6) — the three required names with their derived
values, each a pure function of the canonical name. -/
def buildTable (n : String) : List (String × String) :=
  [("PROJECT_NAME", n),
   ("PROJECT_NAME_UPPER", deriveUpper n),
   ("PROJECT_NAME_SNAKE", deriveSnake n)]

/-- The three variable names every implementation must preserve (§6). -/
def requiredNames : List String :=
  ["PROJECT_NAME", "PROJECT_NAME_UPPER", "PROJECT_NAME_SNAKE"]

/-- Per-entry outcome of materialization (§3 MaterializationResult). -/
inductive Outcome where
  | written (e : Entry)
  | failed (e : Entry) (reason : String)
  deriving DecidableEq

/-- Modelled from the spec: the MaterializationResult of §3 — per-entry
outcomes plus the first failure, when one occurred. -/
structure MaterializationResult where
  outcomes : List Outcome
  failure : Option (Entry × String)
  deriving DecidableEq

/-- The aggregate status is success exactly when no failure occurred. -/
def MaterializationResult.isSuccess (r : MaterializationResult) : Bool :=
  r.failure.isNone

/-- Number of entries reported written. -/
def successCount (r : MaterializationResult) : Nat :=
  (r.outcomes.filter (fun o => match o with
    | Outcome.written _ => true
    | Outcome.failed _ _ => false)).length

/-- Number of entries reported failed. -/
def failedCount (r : MaterializationResult) : Nat :=
  (r.outcomes.filter (fun o => match o with
    | Outcome.written _ => false
    | Outcome.failed _ _ => true)).length

/-- Modelled from the spec: the Project Materializer of §4.4. The destination
filesystem is a list of (path, content) pairs; `wf` simulates a per-entry
write failure (with its reason). Entries are written in order; on the first
failure the run halts, reporting everything written so far plus the failing
entry and reason; already-written files are not rolled back. -/
def materialize (wf : Entry → Option String)
    (disk : List (String × String)) :
    List Entry → MaterializationResult × List (String × String)
  | [] => (⟨[], none⟩, disk)
  | e :: es =>
    match wf e with
    | some reason => (⟨[Outcome.failed e reason], some (e, reason)⟩, disk)
    | none =>
      let r := materialize wf (disk ++ [(e.path, e.content)]) es
      (⟨Outcome.written e :: r.1.outcomes, r.1.failure⟩, r.2)

/-- Observable side effect of a run: reading a template entry or writing an
output file. -/
inductive Effect where
  | readTemplate (path : String)
  | writeFile (path : String)
  deriving DecidableEq

/-- Full result of an engine run: per-entry outcomes, the effect trace, the
final destination filesystem, and the error that aborted the run, if any. -/
structure RunResult where
  outcomes : List Outcome
  effects : List Effect
  disk : List (String × String)
  error : Option EngineError
  deriving DecidableEq

/-- Modelled from the spec: the per-entry pipeline of §2 and §7 — each entry
in order is read, substituted and written; an unresolved token or a write
failure aborts further processing but preserves work already committed. -/
def runEntries (table : List (String × String)) (wf : Entry → Option String) :
    List Entry → List (String × String) → RunResult
  | [], disk => ⟨[], [], disk, none⟩
  | e :: es, disk =>
    match substituteEntry table e with
    | Except.error u =>
      ⟨[], [Effect.readTemplate e.path], disk, some (EngineError.unresolved u)⟩
    | Except.ok r =>
      match wf r with
      | some reason =>
        ⟨[Outcome.failed r reason],
         [Effect.readTemplate e.path], disk,
         some (EngineError.writeError r.path reason)⟩
      | none =>
        let rec2 := runEntries table wf es (disk ++ [(r.path, r.content)])
        ⟨Outcome.written r :: rec2.outcomes,
         Effect.readTemplate e.path :: Effect.writeFile r.path :: rec2.effects,
         rec2.disk, rec2.error⟩

/-- Modelled from the spec: a whole engine run (§2 control flow, §7).
Canonical-name validation is a pre-flight check: an invalid name aborts with
`InvalidNameError` before any template entry is read and with no filesystem
mutation. -/
def run (name : String) (templates : List Entry) (wf : Entry → Option String)
    (disk : List (String × String)) : RunResult :=
  if validName name then runEntries (buildTable name) wf templates disk
  else ⟨[], [], disk, some (EngineError.invalidName name)⟩

/-- Adjacent pair of opening braces somewhere in the character list — the
marker the round-trip property of §8 scans for. -/
def hasLL : List Char → Bool
  | a :: b :: t => (a == lbrace && b == lbrace) || hasLL (b :: t)
  | _ => false

/-- Prefix test on character lists. -/
def isPrefixChars : List Char → List Char → Bool
  | [], _ => true
  | _ :: _, [] => false
  | a :: as, b :: bs => a == b && isPrefixChars as bs

/-- Substring containment on character lists. -/
def containsSubChars (pat : List Char) : List Char → Bool
  | [] => isPrefixChars pat []
  | l@(_ :: rest) => isPrefixChars pat l || containsSubChars pat rest

/-- Substring containment on strings, modelling `std::string::find` being
different from `npos`. -/
def containsSub (s pat : String) : Bool :=
  containsSubChars pat.toList s.toList

/-- Characters of a file stored as its list of lines: lines are joined with a
newline; a file ending in a newline has a final empty line. -/
def linesChars : List String → List Char
  | [] => []
  | [l] => l.toList
  | l :: ls => l.toList ++ newline :: linesChars ls

/-- Token keys of a file given as its list of lines, scanned line by line. -/
def scanLines : List String → Option (List String)
  | [] => some []
  | [l] => scanTokens l.toList
  | l :: ls =>
    match scanTokens (l.toList ++ [newline]), scanLines ls with
    | some a, some b => some (a ++ b)
    | _, _ => none

/-- Lines of src/templates/c_project/src/main.c, embedded verbatim. -/
def mainCLines : List String :=
  [   "/**",
   " * @file main.c",
   " * @brief \x7b\x7bPROJECT_NAME\x7d\x7d - A modern C17 application",
   " *",
   " * This template demonstrates modern C17 features and best practices.",
   " *",
   " * Build: ovo build",
   " * Run:   ovo run",
   " */",
   "",
   "#include <stdio.h>",
   "#include <stdlib.h>",
   "#include <string.h>",
   "#include <stdbool.h>",
   "#include <stdint.h>",
   "#include <stddef.h>",
   "",
   "/// Application name",
   "#define APP_NAME \"\x7b\x7bPROJECT_NAME\x7d\x7d\"",
   "",
   "/// Application version",
   "#define APP_VERSION \"0.1.0\"",
   "",
   "/**",
   " * @brief Application configuration",
   " */",
   "typedef struct \x7b",
   "    const char* name;",
   "    const char* version;",
   "    bool verbose;",
   "    bool help_requested;",
   "\x7d Config;",
   "",
   "/**",
   " * @brief Result codes for operations",
   " */",
   "typedef enum \x7b",
   "    RESULT_OK = 0,",
   "    RESULT_ERROR = 1,",
   "    RESULT_HELP_SHOWN = 2,",
   "\x7d Result;",
   "",
   "/**",
   " * @brief Print usage information",
   " */",
   "static void print_usage(void) \x7b",
   "    printf(\"Usage: %s [OPTIONS]\\n\\n\", APP_NAME);",
   "    printf(\"Options:\\n\");",
   "    printf(\"  -h, --help     Show this help message\\n\");",
   "    printf(\"  -v, --verbose  Enable verbose output\\n\");",
   "    printf(\"  -V, --version  Show version information\\n\");",
   "\x7d",
   "",
   "/**",
   " * @brief Print version information",
   " */",
   "static void print_version(void) \x7b",
   "    printf(\"%s version %s\\n\", APP_NAME, APP_VERSION);",
   "\x7d",
   "",
   "/**",
   " * @brief Parse command line arguments",
   " *",
   " * @param argc Argument count",
   " * @param argv Argument values",
   " * @param config Output configuration",
   " * @return Result code",
   " */",
   "static Result parse_args(int argc, char* argv[], Config* config) \x7b",
   "    // Initialize config with defaults using designated initializers (C99+)",
   "    *config = (Config)\x7b",
   "        .name = APP_NAME,",
   "        .version = APP_VERSION,",
   "        .verbose = false,",
   "        .help_requested = false,",
   "    \x7d;",
   "",
   "    for (int i = 1; i < argc; ++i) \x7b",
   "        const char* arg = argv[i];",
   "",
   "        if (strcmp(arg, \"-h\") == 0 || strcmp(arg, \"--help\") == 0) \x7b",
   "            config->help_requested = true;",
   "            return RESULT_HELP_SHOWN;",
   "        \x7d",
   "",
   "        if (strcmp(arg, \"-V\") == 0 || strcmp(arg, \"--version\") == 0) \x7b",
   "            print_version();",
   "            return RESULT_HELP_SHOWN;",
   "        \x7d",
   "",
   "        if (strcmp(arg, \"-v\") == 0 || strcmp(arg, \"--verbose\") == 0) \x7b",
   "            config->verbose = true;",
   "            continue;",
   "        \x7d",
   "",
   "        // Unknown argument",
   "        fprintf(stderr, \"Error: Unknown argument \x27%s\x27\\n\\n\", arg);",
   "        print_usage();",
   "        return RESULT_ERROR;",
   "    \x7d",
   "",
   "    return RESULT_OK;",
   "\x7d",
   "",
   "/**",
   " * @brief Demonstrate modern C17 features",
   " *",
   " * @param config Application configuration",
   " */",
   "static void demonstrate_features(const Config* config) \x7b",
   "    // Compound literals (C99+)",
   "    int numbers[] = \x7b1, 2, 3, 4, 5\x7d;",
   "    size_t count = sizeof(numbers) / sizeof(numbers[0]);",
   "",
   "    printf(\"Numbers: \");",
   "    for (size_t i = 0; i < count; ++i) \x7b",
   "        printf(\"%d \", numbers[i]);",
   "    \x7d",
   "    printf(\"\\n\");",
   "",
   "    // Calculate squares using anonymous struct with designated initializers",
   "    struct \x7b int value; int square; \x7d squares[5];",
   "    for (size_t i = 0; i < count; ++i) \x7b",
   "        squares[i] = (typeof(squares[0]))\x7b",
   "            .value = numbers[i],",
   "            .square = numbers[i] * numbers[i],",
   "        \x7d;",
   "    \x7d",
   "",
   "    printf(\"Squares: \");",
   "    for (size_t i = 0; i < count; ++i) \x7b",
   "        printf(\"%d \", squares[i].square);",
   "    \x7d",
   "    printf(\"\\n\");",
   "",
   "    if (config->verbose) \x7b",
   "        printf(\"\\nVerbose output enabled.\\n\");",
   "        printf(\"Demonstrating C17 features:\\n\");",
   "        printf(\"  - Designated initializers (C99)\\n\");",
   "        printf(\"  - Compound literals (C99)\\n\");",
   "        printf(\"  - _Static_assert (C11)\\n\");",
   "        printf(\"  - Boolean type from stdbool.h (C99)\\n\");",
   "        printf(\"  - Fixed-width integers from stdint.h (C99)\\n\");",
   "        printf(\"  - Anonymous structs and unions (C11)\\n\");",
   "    \x7d",
   "\x7d",
   "",
   "/**",
   " * @brief Application entry point",
   " *",
   " * @param argc Argument count",
   " * @param argv Argument values",
   " * @return Exit code",
   " */",
   "int main(int argc, char* argv[]) \x7b",
   "    // Compile-time assertion (C11)",
   "    _Static_assert(sizeof(int) >= 4, \"int must be at least 32 bits\");",
   "",
   "    Config config;",
   "    Result result = parse_args(argc, argv, &config);",
   "",
   "    if (result == RESULT_HELP_SHOWN) \x7b",
   "        if (config.help_requested) \x7b",
   "            print_usage();",
   "        \x7d",
   "        return EXIT_SUCCESS;",
   "    \x7d",
   "",
   "    if (result != RESULT_OK) \x7b",
   "        return EXIT_FAILURE;",
   "    \x7d",
   "",
   "    printf(\"Welcome to %s!\\n\", config.name);",
   "    printf(\"Version: %s\\n\\n\", config.version);",
   "",
   "    demonstrate_features(&config);",
   "",
   "    return EXIT_SUCCESS;",
   "\x7d",
   "",
   ""]

/-- Lines of src/templates/cpp_exe/src/main.cpp, embedded verbatim. -/
def cppExeLines : List String :=
  [   "/**",
   " * @file main.cpp",
   " * @brief \x7b\x7bPROJECT_NAME\x7d\x7d - A modern C++23 application",
   " *",
   " * This template demonstrates modern C++23 features and best practices.",
   " *",
   " * Build: ovo build",
   " * Run:   ovo run",
   " * Test:  ovo test",
   " */",
   "",
   "#include <print>",
   "#include <string>",
   "#include <string_view>",
   "#include <vector>",
   "#include <ranges>",
   "#include <expected>",
   "#include <format>",
   "#include <span>",
   "",
   "namespace app \x7b",
   "",
   "/// Application version",
   "inline constexpr std::string_view VERSION = \"0.1.0\";",
   "",
   "/// Application configuration",
   "struct Config \x7b",
   "    std::string_view name\x7b\"\x7b\x7bPROJECT_NAME\x7d\x7d\"\x7d;",
   "    std::string_view version\x7bVERSION\x7d;",
   "    bool verbose\x7bfalse\x7d;",
   "\x7d;",
   "",
   "/// Result type for operations that can fail",
   "template<typename T>",
   "using Result = std::expected<T, std::string>;",
   "",
   "/// Parse command line arguments",
   "[[nodiscard]] auto parse_args(std::span<char*> args) -> Result<Config> \x7b",
   "    Config config;",
   "",
   "    for (auto it = args.begin() + 1; it != args.end(); ++it) \x7b",
   "        std::string_view arg\x7b*it\x7d;",
   "",
   "        if (arg == \"--verbose\" || arg == \"-v\") \x7b",
   "            config.verbose = true;",
   "        \x7d else if (arg == \"--help\" || arg == \"-h\") \x7b",
   "            return std::unexpected(",
   "                std::format(\"Usage: \x7b\x7d [--verbose|-v] [--help|-h]\\n\", config.name)",
   "            );",
   "        \x7d else if (arg == \"--version\" || arg == \"-V\") \x7b",
   "            return std::unexpected(",
   "                std::format(\"\x7b\x7d version \x7b\x7d\\n\", config.name, config.version)",
   "            );",
   "        \x7d",
   "    \x7d",
   "",
   "    return config;",
   "\x7d",
   "",
   "/// Run the application",
   "[[nodiscard]] auto run(const Config& config) -> int \x7b",
   "    std::println(\"Welcome to \x7b\x7d!\", config.name);",
   "    std::println(\"Version: \x7b\x7d\", config.version);",
   "",
   "    if (config.verbose) \x7b",
   "        std::println(\"\\nRunning in verbose mode\");",
   "    \x7d",
   "",
   "    // Demonstrate C++23 ranges",
   "    auto numbers = std::vector\x7b1, 2, 3, 4, 5\x7d;",
   "    auto squares = numbers",
   "        | std::views::transform([](int n) \x7b return n * n; \x7d);",
   "",
   "    std::print(\"\\nSquares of 1-5: \");",
   "    for (auto sq : squares) \x7b",
   "        std::print(\"\x7b\x7d \", sq);",
   "    \x7d",
   "    std::println(\"\");",
   "",
   "    return 0;",
   "\x7d",
   "",
   "\x7d // namespace app",
   "",
   "int main(int argc, char* argv[]) \x7b",
   "    auto args = std::span(argv, static_cast<std::size_t>(argc));",
   "    auto config_result = app::parse_args(args);",
   "",
   "    if (!config_result) \x7b",
   "        std::print(\"\x7b\x7d\", config_result.error());",
   "        return config_result.error().find(\"Usage:\") != std::string::npos ? 1 : 0;",
   "    \x7d",
   "",
   "    return app::run(*config_result);",
   "\x7d",
   "",
   ""]

/-- Lines of src/templates/cpp_lib/src/lib.cpp, embedded verbatim. -/
def libCppLines : List String :=
  [   "#include \"lib.hpp\"",
   "#include <format>",
   "",
   "namespace \x7b\x7bPROJECT_NAME\x7d\x7d \x7b",
   "",
   "std::string greet(std::string_view name) \x7b",
   "    return std::format(\"Hello, \x7b\x7d!\", name);",
   "\x7d",
   "",
   "Example::Example(std::string name) : m_name(std::move(name)) \x7b\x7d",
   "",
   "std::string Example::describe() const \x7b",
   "    return std::format(\"Example(name=\\\"\x7b\x7d\\\")\", m_name);",
   "\x7d",
   "",
   "\x7d // namespace \x7b\x7bPROJECT_NAME\x7d\x7d"]

/-- Lines of src/templates/cpp_lib/include/lib.hpp, embedded verbatim. -/
def libHppLines : List String :=
  [   "/**",
   " * @file lib.hpp",
   " * @brief \x7b\x7bPROJECT_NAME\x7d\x7d - Traditional header interface",
   " *",
   " * This header provides a traditional C++ interface for compilers",
   " * that don\x27t yet support C++20 modules, or for interoperability.",
   " */",
   "",
   "#ifndef \x7b\x7bPROJECT_NAME_UPPER\x7d\x7d_HPP",
   "#define \x7b\x7bPROJECT_NAME_UPPER\x7d\x7d_HPP",
   "",
   "#include <string>",
   "#include <string_view>",
   "#include <memory>",
   "#include <vector>",
   "",
   "// DLL export/import macros",
   "#if defined(_WIN32) || defined(_WIN64)",
   "    #ifdef \x7b\x7bPROJECT_NAME_UPPER\x7d\x7d_BUILDING",
   "        #define \x7b\x7bPROJECT_NAME_UPPER\x7d\x7d_API __declspec(dllexport)",
   "    #else",
   "        #ifdef \x7b\x7bPROJECT_NAME_UPPER\x7d\x7d_SHARED",
   "            #define \x7b\x7bPROJECT_NAME_UPPER\x7d\x7d_API __declspec(dllimport)",
   "        #else",
   "            #define \x7b\x7bPROJECT_NAME_UPPER\x7d\x7d_API",
   "        #endif",
   "    #endif",
   "#else",
   "    #ifdef \x7b\x7bPROJECT_NAME_UPPER\x7d\x7d_BUILDING",
   "        #define \x7b\x7bPROJECT_NAME_UPPER\x7d\x7d_API __attribute__((visibility(\"default\")))",
   "    #else",
   "        #define \x7b\x7bPROJECT_NAME_UPPER\x7d\x7d_API",
   "    #endif",
   "#endif",
   "",
   "namespace \x7b\x7bPROJECT_NAME_SNAKE\x7d\x7d \x7b",
   "",
   "/**",
   " * @brief Library version information",
   " */",
   "struct \x7b\x7bPROJECT_NAME_UPPER\x7d\x7d_API Version \x7b",
   "    int major;",
   "    int minor;",
   "    int patch;",
   "",
   "    /**",
   "     * @brief Convert version to string format \"major.minor.patch\"",
   "     */",
   "    [[nodiscard]] std::string to_string() const;",
   "\x7d;",
   "",
   "/**",
   " * @brief Get the library version",
   " * @return Version struct containing major, minor, patch numbers",
   " */",
   "[[nodiscard]] \x7b\x7bPROJECT_NAME_UPPER\x7d\x7d_API Version version() noexcept;",
   "",
   "/**",
   " * @brief Abstract base class for processable items",
   " */",
   "class \x7b\x7bPROJECT_NAME_UPPER\x7d\x7d_API IProcessable \x7b",
   "public:",
   "    virtual ~IProcessable() = default;",
   "",
   "    /**",
   "     * @brief Process this item",
   "     * @return true if processing succeeded, false otherwise",
   "     */",
   "    [[nodiscard]] virtual bool process() = 0;",
   "\x7d;",
   "",
   "/**",
   " * @brief Container for holding processable items",
   " */",
   "class \x7b\x7bPROJECT_NAME_UPPER\x7d\x7d_API Container \x7b",
   "public:",
   "    Container();",
   "    ~Container();",
   "",
   "    // Non-copyable",
   "    Container(const Container&) = delete;",
   "    Container& operator=(const Container&) = delete;",
   "",
   "    // Movable",
   "    Container(Container&&) noexcept;",
   "    Container& operator=(Container&&) noexcept;",
   "",
   "    /**",
   "     * @brief Add an item to the container",
   "     * @param item Unique pointer to a processable item",
   "     */",
   "    void add(std::unique_ptr<IProcessable> item);",
   "",
   "    /**",
   "     * @brief Process all items in the container",
   "     * @return true if all items processed successfully",
   "     */",
   "    [[nodiscard]] bool process_all();",
   "",
   "    /**",
   "     * @brief Get the number of items in the container",
   "     */",
   "    [[nodiscard]] std::size_t size() const noexcept;",
   "",
   "    /**",
   "     * @brief Check if container is empty",
   "     */",
   "    [[nodiscard]] bool empty() const noexcept;",
   "",
   "    /**",
   "     * @brief Clear all items from the container",
   "     */",
   "    void clear() noexcept;",
   "",
   "private:",
   "    struct Impl;",
   "    std::unique_ptr<Impl> impl_;",
   "\x7d;",
   "",
   "/**",
   " * @brief Example processable item",
   " */",
   "class \x7b\x7bPROJECT_NAME_UPPER\x7d\x7d_API Item : public IProcessable \x7b",
   "public:",
   "    Item();",
   "",
   "    /**",
   "     * @brief Construct an item with a name",
   "     * @param name The item\x27s name",
   "     */",
   "    explicit Item(std::string_view name);",
   "",
   "    ~Item() override;",
   "",
   "    /**",
   "     * @brief Process this item",
   "     * @return Always returns true",
   "     */",
   "    [[nodiscard]] bool process() override;",
   "",
   "    /**",
   "     * @brief Get the item\x27s name",
   "     */",
   "    [[nodiscard]] std::string_view name() const noexcept;",
   "",
   "    /**",
   "     * @brief Check if this item has been processed",
   "     */",
   "    [[nodiscard]] bool is_processed() const noexcept;",
   "",
   "private:",
   "    std::string name_;",
   "    bool processed_\x7bfalse\x7d;",
   "\x7d;",
   "",
   "/**",
   " * @brief Factory function to create items",
   " * @param name The item\x27s name",
   " * @return Unique pointer to the created item",
   " */",
   "[[nodiscard]] \x7b\x7bPROJECT_NAME_UPPER\x7d\x7d_API std::unique_ptr<Item> make_item(std::string_view name);",
   "",
   "/**",
   " * @brief Greet the given name",
   " * @param name The name to greet",
   " * @return A greeting message",
   " */",
   "[[nodiscard]] \x7b\x7bPROJECT_NAME_UPPER\x7d\x7d_API std::string greet(std::string_view name);",
   "",
   "\x7d // namespace \x7b\x7bPROJECT_NAME_SNAKE\x7d\x7d",
   "",
   "#endif // \x7b\x7bPROJECT_NAME_UPPER\x7d\x7d_HPP",
   "",
   ""]

/-- Entry for the c_project template's main.c fixture. -/
def mainCEntry : Entry :=
  ⟨"src/templates/c_project/src/main.c", String.mk (linesChars mainCLines)⟩

/-- Entry for the cpp_exe template's main.cpp fixture. -/
def cppExeEntry : Entry :=
  ⟨"src/templates/cpp_exe/src/main.cpp", String.mk (linesChars cppExeLines)⟩

/-- Entry for the cpp_lib template's lib.cpp fixture. -/
def libCppEntry : Entry :=
  ⟨"src/templates/cpp_lib/src/lib.cpp", String.mk (linesChars libCppLines)⟩

/-- Entry for the cpp_lib template's lib.hpp fixture. -/
def libHppEntry : Entry :=
  ⟨"src/templates/cpp_lib/include/lib.hpp", String.mk (linesChars libHppLines)⟩

/-- The four template fixtures supplied by the repository. -/
def fixtures : List Entry :=
  [mainCEntry, cppExeEntry, libCppEntry, libHppEntry]

/-- Literal application name of the cpp_exe template (src/templates/cpp_exe/src/main.cpp line 28). -/
def cppExeName : String := "\x7b\x7bPROJECT_NAME\x7d\x7d"

/-- Version constant of the cpp_exe template (line 24). -/
def cppExeVersion : String := "0.1.0"

/-- Configuration of the cpp_exe application (struct Config, lines 27-31). -/
structure AppConfig where
  name : String
  version : String
  verbose : Bool
  deriving DecidableEq

/-- Default-constructed cpp_exe Config. -/
def defaultAppConfig : AppConfig := ⟨cppExeName, cppExeVersion, false⟩

/-- Usage message built by cpp_exe parse_args (line 48). -/
def usageText (name : String) : String :=
  "Usage: " ++ name ++ " [--verbose|-v] [--help|-h]\n"

/-- Version message built by cpp_exe parse_args (line 52). -/
def versionText (name version : String) : String :=
  name ++ " version " ++ version ++ "\n"

/-- app::parse_args of src/templates/cpp_exe/src/main.cpp lines 38-58, taking
the argument vector without the program name (the loop starts at
args.begin() + 1). Verbose flags set the flag and continue, a help flag
returns the usage text as the error, a version flag returns the version text
as the error, and any other argument is ignored. -/
def parseArgsCppExe : List String → AppConfig → Except String AppConfig
  | [], cfg => Except.ok cfg
  | a :: rest, cfg =>
    if a == "--verbose" || a == "-v" then
      parseArgsCppExe rest ⟨cfg.name, cfg.version, true⟩
    else if a == "--help" || a == "-h" then
      Except.error (usageText cfg.name)
    else if a == "--version" || a == "-V" then
      Except.error (versionText cfg.name cfg.version)
    else parseArgsCppExe rest cfg

/-- Output printed by app::run (lines 61-81); it always returns 0. -/
def runOutputCppExe (cfg : AppConfig) : String :=
  "Welcome to " ++ cfg.name ++ "!\n" ++ "Version: " ++ cfg.version ++ "\n" ++
  (if cfg.verbose then "\nRunning in verbose mode\n" else String.mk []) ++
  "\nSquares of 1-5: " ++
  String.join ([1, 2, 3, 4, 5].map (fun n => toString (n * n) ++ " ")) ++ "\n"

/-- main of src/templates/cpp_exe/src/main.cpp lines 85-95, modelled as exit
status paired with printed output: on a parse_args error the message is
printed and the status is 1 exactly when the message contains "Usage:",
otherwise app::run prints its output and returns 0. -/
def mainCppExe (args : List String) : Nat × String :=
  match parseArgsCppExe args defaultAppConfig with
  | Except.error e => (if containsSub e ("Usage:") then 1 else 0, e)
  | Except.ok cfg => (0, runOutputCppExe cfg)

/-- Result codes of the c_project template (typedef enum, lines 37-41). -/
inductive CResult where
  | ok
  | err
  | helpShown
  deriving DecidableEq

/-- Configuration of the c_project application (lines 27-32). -/
structure CConfig where
  name : String
  version : String
  verbose : Bool
  helpRequested : Bool
  deriving DecidableEq

/-- APP_NAME of src/templates/c_project/src/main.c line 19. -/
def cAppName : String := "\x7b\x7bPROJECT_NAME\x7d\x7d"

/-- APP_VERSION, line 22. -/
def cAppVersion : String := "0.1.0"

/-- Config defaults set at the top of parse_args (lines 71-76). -/
def cDefaultConfig : CConfig := ⟨cAppName, cAppVersion, false, false⟩

/-- print_usage output (lines 46-52). -/
def cUsageText : String :=
  "Usage: " ++ cAppName ++ " [OPTIONS]\n\n" ++ "Options:\n" ++
  "  -h, --help     Show this help message\n" ++
  "  -v, --verbose  Enable verbose output\n" ++
  "  -V, --version  Show version information\n"

/-- print_version output (lines 57-59). -/
def cVersionText : String := cAppName ++ " version " ++ cAppVersion ++ "\n"

/-- Error line printed for an unknown argument (line 97; stderr and stdout are
modelled as one output stream). -/
def cUnknownArgText (a : String) : String :=
  "Error: Unknown argument \x27" ++ a ++ "\x27\n\n"

/-- parse_args of src/templates/c_project/src/main.c lines 69-103, taking the
argument vector without the program name (the loop starts at i = 1) and the
current config; it returns the result code, the final config and the text
printed while parsing. Help flags record the request and stop, version flags
print the version and stop, verbose flags set the flag and continue, and the
first unknown argument prints an error plus the usage text and stops with
RESULT_ERROR. -/
def parseArgsC : List String → CConfig → CResult × CConfig × String
  | [], cfg => (CResult.ok, cfg, String.mk [])
  | a :: rest, cfg =>
    if a == "-h" || a == "--help" then
      (CResult.helpShown, ⟨cfg.name, cfg.version, cfg.verbose, true⟩, String.mk [])
    else if a == "-V" || a == "--version" then
      (CResult.helpShown, cfg, cVersionText)
    else if a == "-v" || a == "--verbose" then
      parseArgsC rest ⟨cfg.name, cfg.version, true, cfg.helpRequested⟩
    else
      (CResult.err, cfg, cUnknownArgText a ++ cUsageText)

/-- Output of demonstrate_features (lines 110-146). -/
def cDemoText (cfg : CConfig) : String :=
  "Numbers: " ++ String.join ([1, 2, 3, 4, 5].map (fun n => toString n ++ " ")) ++ "\n" ++
  "Squares: " ++ String.join ([1, 2, 3, 4, 5].map (fun n => toString (n * n) ++ " ")) ++ "\n" ++
  (if cfg.verbose then
    "\nVerbose output enabled.\nDemonstrating C17 features:\n" ++
    "  - Designated initializers (C99)\n" ++
    "  - Compound literals (C99)\n" ++
    "  - _Static_assert (C11)\n" ++
    "  - Boolean type from stdbool.h (C99)\n" ++
    "  - Fixed-width integers from stdint.h (C99)\n" ++
    "  - Anonymous structs and unions (C11)\n"
  else String.mk [])

/-- main of src/templates/c_project/src/main.c lines 155-179, modelled as exit
status paired with printed output: RESULT_HELP_SHOWN prints the usage text
when help was requested and exits EXIT_SUCCESS, any other non-OK result exits
EXIT_FAILURE, and RESULT_OK prints the welcome banner and the feature demo
and exits EXIT_SUCCESS. -/
def mainC (args : List String) : Nat × String :=
  match parseArgsC args cDefaultConfig with
  | (CResult.helpShown, cfg, printed) =>
    (0, printed ++ (if cfg.helpRequested then cUsageText else String.mk []))
  | (CResult.err, _, printed) => (1, printed)
  | (CResult.ok, cfg, printed) =>
    (0, printed ++ "Welcome to " ++ cfg.name ++ "!\n" ++
        "Version: " ++ cfg.version ++ "\n\n" ++ cDemoText cfg)

/-- Position of the first help or version flag in a cpp_exe argument vector:
`some true` when it is a help flag, `some false` when it is a version flag. -/
def firstHelpVersion : List String → Option Bool
  | [] => none
  | a :: rest =>
    if a == "--verbose" || a == "-v" then firstHelpVersion rest
    else if a == "--help" || a == "-h" then some true
    else if a == "--version" || a == "-V" then some false
    else firstHelpVersion rest

/-- Characters packed by `Char.ofNat` from a scalar value below the surrogate
range keep that value. -/
theorem toNat_ofNat_valid (m : Nat) (h : m < 55296) : (Char.ofNat m).toNat = m := by
  rw [Char.ofNat, dif_pos (Or.inl h)]
  rfl

/-- Uppercasing never produces an opening brace unless it was one already. -/
theorem toUpper_ne_lbrace (c : Char) (hc : c ≠ lbrace) : c.toUpper ≠ lbrace := by
  rw [Char.toUpper]
  split
  · intro he
    have h2 : (Char.ofNat (c.toNat - 32)).toNat = c.toNat - 32 := by
      apply toNat_ofNat_valid
      omega
    rw [he] at h2
    have h3 : lbrace.toNat = 123 := by decide
    omega
  · exact hc

/-- Lowercasing never produces an opening brace unless it was one already. -/
theorem toLower_ne_lbrace (c : Char) (hc : c ≠ lbrace) : c.toLower ≠ lbrace := by
  rw [Char.toLower]
  split
  · intro he
    have h2 : (Char.ofNat (c.toNat + 32)).toNat = c.toNat + 32 := by
      apply toNat_ofNat_valid
      omega
    rw [he] at h2
    have h3 : lbrace.toNat = 123 := by decide
    omega
  · exact hc

/-- Dropping a prefix never lengthens a list. -/
theorem length_dropWhile_le (p : Char → Bool) (l : List Char) :
    (List.dropWhile p l).length ≤ l.length := by
  induction l with
  | nil => simp [List.dropWhile]
  | cons a t ih =>
    rw [List.dropWhile_cons]
    split
    · simp only [List.length_cons]
      omega
    · simp

/-- Strings with the same character list are equal. -/
theorem string_toList_inj (a b : String) (h : a.toList = b.toList) : a = b := by
  cases a
  cases b
  exact congrArg String.mk (by simpa using h)

/-- Unfolding of the token scanner at a list of length at least two. -/
theorem scanTokensF_succ_cons (f : Nat) (c c2 : Char) (cs2 : List Char) :
    scanTokensF (f + 1) (c :: c2 :: cs2) =
      if c == lbrace && c2 == lbrace then
        match List.dropWhile (fun x => x != rbrace) cs2 with
        | _ :: r2 :: tail =>
          if r2 == rbrace then
            Option.map
              (fun ks => String.mk (List.takeWhile (fun x => x != rbrace) cs2) :: ks)
              (scanTokensF f tail)
          else none
        | _ => none
      else scanTokensF f (c2 :: cs2) := rfl

/-- Unfolding of the substitution pass at a list of length at least two. -/
theorem substCharsF_succ_cons (table : List (String × String)) (path : String)
    (f : Nat) (c c2 : Char) (cs2 : List Char) :
    substCharsF table path (f + 1) (c :: c2 :: cs2) =
      if c == lbrace && c2 == lbrace then
        match List.dropWhile (fun x => x != rbrace) cs2 with
        | _ :: r2 :: tail =>
          if r2 == rbrace then
            match lookupVar (String.mk (List.takeWhile (fun x => x != rbrace) cs2)) table with
            | some v =>
              Except.map (fun t => v.toList ++ t) (substCharsF table path f tail)
            | none =>
              Except.error ⟨String.mk (List.takeWhile (fun x => x != rbrace) cs2), path⟩
          else Except.error ⟨String.mk (List.takeWhile (fun x => x != rbrace) cs2), path⟩
        | _ => Except.error ⟨String.mk (List.takeWhile (fun x => x != rbrace) cs2), path⟩
      else Except.map (fun t => c :: t) (substCharsF table path f (c2 :: cs2)) := rfl

/-- The token scanner does not depend on the fuel, once the fuel exceeds the
length of the input. -/
theorem scanTokensF_congr :
    ∀ (f g : Nat) (cs : List Char), cs.length < f → cs.length < g →
      scanTokensF f cs = scanTokensF g cs := by
  intro f
  induction f with
  | zero =>
    intro g cs hf hg
    exact absurd hf (by omega)
  | succ f ih =>
    intro g cs hf hg
    match g with
    | 0 => exact absurd hg (by omega)
    | g + 1 =>
      match cs with
      | [] => rfl
      | [c] => rfl
      | c :: c2 :: cs2 =>
        rw [scanTokensF_succ_cons, scanTokensF_succ_cons]
        simp only [List.length_cons] at hf hg
        by_cases hcc : (c == lbrace && c2 == lbrace) = true
        · rw [if_pos hcc, if_pos hcc]
          rcases hdw : List.dropWhile (fun x => x != rbrace) cs2 with _ | ⟨r1, rest1⟩
          · rfl
          rcases rest1 with _ | ⟨r2, tail⟩
          · rfl
          dsimp only
          have hlen : (r1 :: r2 :: tail).length ≤ cs2.length := by
            rw [← hdw]
            exact length_dropWhile_le _ _
          simp only [List.length_cons] at hlen
          by_cases hr2 : (r2 == rbrace) = true
          · rw [if_pos hr2, if_pos hr2]
            rw [ih g tail (by omega) (by omega)]
          · rw [if_neg (by simpa using hr2), if_neg (by simpa using hr2)]
        · rw [if_neg (by simpa using hcc), if_neg (by simpa using hcc)]
          exact ih g (c2 :: cs2) (by simp; omega) (by simp; omega)

/-- The substitution pass does not depend on the fuel, once the fuel exceeds
the length of the input. -/
theorem substCharsF_congr (table : List (String × String)) (path : String) :
    ∀ (f g : Nat) (cs : List Char), cs.length < f → cs.length < g →
      substCharsF table path f cs = substCharsF table path g cs := by
  intro f
  induction f with
  | zero =>
    intro g cs hf hg
    exact absurd hf (by omega)
  | succ f ih =>
    intro g cs hf hg
    match g with
    | 0 => exact absurd hg (by omega)
    | g + 1 =>
      match cs with
      | [] => rfl
      | [c] => rfl
      | c :: c2 :: cs2 =>
        rw [substCharsF_succ_cons, substCharsF_succ_cons]
        simp only [List.length_cons] at hf hg
        by_cases hcc : (c == lbrace && c2 == lbrace) = true
        · rw [if_pos hcc, if_pos hcc]
          rcases hdw : List.dropWhile (fun x => x != rbrace) cs2 with _ | ⟨r1, rest1⟩
          · rfl
          rcases rest1 with _ | ⟨r2, tail⟩
          · rfl
          dsimp only
          have hlen : (r1 :: r2 :: tail).length ≤ cs2.length := by
            rw [← hdw]
            exact length_dropWhile_le _ _
          simp only [List.length_cons] at hlen
          by_cases hr2 : (r2 == rbrace) = true
          · rw [if_pos hr2, if_pos hr2]
            rcases lookupVar (String.mk (List.takeWhile (fun x => x != rbrace) cs2)) table with _ | v
            · rfl
            · rw [ih g tail (by omega) (by omega)]
          · rw [if_neg (by simpa using hr2), if_neg (by simpa using hr2)]
        · rw [if_neg (by simpa using hcc), if_neg (by simpa using hcc)]
          rw [ih g (c2 :: cs2) (by simp; omega) (by simp; omega)]

/-- Scanner step: empty input. -/
theorem scanTokens_nil : scanTokens [] = some [] := rfl

/-- Scanner step: one character. -/
theorem scanTokens_single (c : Char) : scanTokens [c] = some [] := rfl

/-- Scanner step: a pair that is not a double opening brace is copied over. -/
theorem scanTokens_copy {c c2 : Char} (cs2 : List Char)
    (h : (c == lbrace && c2 == lbrace) = false) :
    scanTokens (c :: c2 :: cs2) = scanTokens (c2 :: cs2) := by
  show scanTokensF ((c :: c2 :: cs2).length + 1) _ = _
  simp only [List.length_cons]
  rw [scanTokensF_succ_cons, if_neg (by simp [h])]
  rfl

/-- Scanner step: a well-formed token contributes its key. -/
theorem scanTokens_token {cs2 : List Char} {r1 r2 : Char} {tail : List Char}
    (hdw : List.dropWhile (fun x => x != rbrace) cs2 = r1 :: r2 :: tail)
    (hr2 : (r2 == rbrace) = true) :
    scanTokens (lbrace :: lbrace :: cs2) =
      Option.map
        (fun ks => String.mk (List.takeWhile (fun x => x != rbrace) cs2) :: ks)
        (scanTokens tail) := by
  have hlen : (r1 :: r2 :: tail).length ≤ cs2.length := by
    rw [← hdw]
    exact length_dropWhile_le _ _
  simp only [List.length_cons] at hlen
  show scanTokensF ((lbrace :: lbrace :: cs2).length + 1) _ = _
  simp only [List.length_cons]
  rw [scanTokensF_succ_cons, if_pos (by simp), hdw]
  dsimp only
  rw [if_pos hr2]
  rw [scanTokensF_congr (cs2.length + 2) (tail.length + 1) tail (by omega) (by omega)]
  rfl

/-- Scanner step: an opener whose remainder holds no closing brace fails. -/
theorem scanTokens_token_bad_nil {cs2 : List Char}
    (hdw : List.dropWhile (fun x => x != rbrace) cs2 = []) :
    scanTokens (lbrace :: lbrace :: cs2) = none := by
  show scanTokensF ((lbrace :: lbrace :: cs2).length + 1) _ = _
  simp only [List.length_cons]
  rw [scanTokensF_succ_cons, if_pos (by simp), hdw]

/-- Scanner step: an opener closed by a single brace at the end fails. -/
theorem scanTokens_token_bad_one {cs2 : List Char} {r1 : Char}
    (hdw : List.dropWhile (fun x => x != rbrace) cs2 = [r1]) :
    scanTokens (lbrace :: lbrace :: cs2) = none := by
  show scanTokensF ((lbrace :: lbrace :: cs2).length + 1) _ = _
  simp only [List.length_cons]
  rw [scanTokensF_succ_cons, if_pos (by simp), hdw]

/-- Scanner step: an opener whose closing brace is not doubled fails. -/
theorem scanTokens_token_bad_r2 {cs2 : List Char} {r1 r2 : Char} {tail : List Char}
    (hdw : List.dropWhile (fun x => x != rbrace) cs2 = r1 :: r2 :: tail)
    (hr2 : (r2 == rbrace) = false) :
    scanTokens (lbrace :: lbrace :: cs2) = none := by
  show scanTokensF ((lbrace :: lbrace :: cs2).length + 1) _ = _
  simp only [List.length_cons]
  rw [scanTokensF_succ_cons, if_pos (by simp), hdw]
  dsimp only
  rw [if_neg (by simp [hr2])]

/-- Substitution step: empty input. -/
theorem substChars_nil (table : List (String × String)) (path : String) :
    substChars table path [] = Except.ok [] := rfl

/-- Substitution step: one character. -/
theorem substChars_single (table : List (String × String)) (path : String)
    (c : Char) : substChars table path [c] = Except.ok [c] := rfl

/-- Substitution step: a pair that is not a double opening brace is copied. -/
theorem substChars_copy (table : List (String × String)) (path : String)
    {c c2 : Char} (cs2 : List Char)
    (h : (c == lbrace && c2 == lbrace) = false) :
    substChars table path (c :: c2 :: cs2) =
      Except.map (fun t => c :: t) (substChars table path (c2 :: cs2)) := by
  show substCharsF table path ((c :: c2 :: cs2).length + 1) _ = _
  simp only [List.length_cons]
  rw [substCharsF_succ_cons, if_neg (by simp [h])]
  rfl

/-- Substitution step: a well-formed token whose key is present is replaced
by the table's value, which is emitted verbatim and never re-scanned. -/
theorem substChars_token_found (table : List (String × String)) (path : String)
    {cs2 : List Char} {r1 r2 : Char} {tail : List Char} {v : String}
    (hdw : List.dropWhile (fun x => x != rbrace) cs2 = r1 :: r2 :: tail)
    (hr2 : (r2 == rbrace) = true)
    (hlk : lookupVar (String.mk (List.takeWhile (fun x => x != rbrace) cs2)) table = some v) :
    substChars table path (lbrace :: lbrace :: cs2) =
      Except.map (fun t => v.toList ++ t) (substChars table path tail) := by
  have hlen : (r1 :: r2 :: tail).length ≤ cs2.length := by
    rw [← hdw]
    exact length_dropWhile_le _ _
  simp only [List.length_cons] at hlen
  show substCharsF table path ((lbrace :: lbrace :: cs2).length + 1) _ = _
  simp only [List.length_cons]
  rw [substCharsF_succ_cons, if_pos (by simp), hdw]
  dsimp only
  rw [if_pos hr2, hlk]
  dsimp only
  rw [substCharsF_congr table path (cs2.length + 2) (tail.length + 1) tail (by omega) (by omega)]
  rfl

/-- Substitution step: a well-formed token whose key is absent is the
unresolved-token error naming that key and the entry path. -/
theorem substChars_token_absent (table : List (String × String)) (path : String)
    {cs2 : List Char} {r1 r2 : Char} {tail : List Char}
    (hdw : List.dropWhile (fun x => x != rbrace) cs2 = r1 :: r2 :: tail)
    (hr2 : (r2 == rbrace) = true)
    (hlk : lookupVar (String.mk (List.takeWhile (fun x => x != rbrace) cs2)) table = none) :
    substChars table path (lbrace :: lbrace :: cs2) =
      Except.error ⟨String.mk (List.takeWhile (fun x => x != rbrace) cs2), path⟩ := by
  show substCharsF table path ((lbrace :: lbrace :: cs2).length + 1) _ = _
  simp only [List.length_cons]
  rw [substCharsF_succ_cons, if_pos (by simp), hdw]
  dsimp only
  rw [if_pos hr2, hlk]

/-- Substitution step: an opener whose remainder holds no closing brace is an
unresolved-token error. -/
theorem substChars_token_bad_nil (table : List (String × String)) (path : String)
    {cs2 : List Char}
    (hdw : List.dropWhile (fun x => x != rbrace) cs2 = []) :
    substChars table path (lbrace :: lbrace :: cs2) =
      Except.error ⟨String.mk (List.takeWhile (fun x => x != rbrace) cs2), path⟩ := by
  show substCharsF table path ((lbrace :: lbrace :: cs2).length + 1) _ = _
  simp only [List.length_cons]
  rw [substCharsF_succ_cons, if_pos (by simp), hdw]

/-- Substitution step: an opener closed by a single final brace is an
unresolved-token error. -/
theorem substChars_token_bad_one (table : List (String × String)) (path : String)
    {cs2 : List Char} {r1 : Char}
    (hdw : List.dropWhile (fun x => x != rbrace) cs2 = [r1]) :
    substChars table path (lbrace :: lbrace :: cs2) =
      Except.error ⟨String.mk (List.takeWhile (fun x => x != rbrace) cs2), path⟩ := by
  show substCharsF table path ((lbrace :: lbrace :: cs2).length + 1) _ = _
  simp only [List.length_cons]
  rw [substCharsF_succ_cons, if_pos (by simp), hdw]

/-- Substitution step: an opener whose closing brace is not doubled is an
unresolved-token error. -/
theorem substChars_token_bad_r2 (table : List (String × String)) (path : String)
    {cs2 : List Char} {r1 r2 : Char} {tail : List Char}
    (hdw : List.dropWhile (fun x => x != rbrace) cs2 = r1 :: r2 :: tail)
    (hr2 : (r2 == rbrace) = false) :
    substChars table path (lbrace :: lbrace :: cs2) =
      Except.error ⟨String.mk (List.takeWhile (fun x => x != rbrace) cs2), path⟩ := by
  show substCharsF table path ((lbrace :: lbrace :: cs2).length + 1) _ = _
  simp only [List.length_cons]
  rw [substCharsF_succ_cons, if_pos (by simp), hdw]
  dsimp only
  rw [if_neg (by simp [hr2])]

/-- takeWhile over an append whose left part wholly satisfies the predicate. -/
theorem takeWhile_append_all {p : Char → Bool} {l1 : List Char} (l2 : List Char)
    (h : ∀ x ∈ l1, p x = true) :
    List.takeWhile p (l1 ++ l2) = l1 ++ List.takeWhile p l2 := by
  induction l1 with
  | nil => simp
  | cons a t ih =>
    have ha : p a = true := h a (List.mem_cons_self a t)
    simp only [List.cons_append, List.takeWhile_cons, ha, if_true]
    rw [ih (fun x hx => h x (List.mem_cons_of_mem a hx))]

/-- dropWhile over an append whose left part wholly satisfies the predicate. -/
theorem dropWhile_append_all {p : Char → Bool} {l1 : List Char} (l2 : List Char)
    (h : ∀ x ∈ l1, p x = true) :
    List.dropWhile p (l1 ++ l2) = List.dropWhile p l2 := by
  induction l1 with
  | nil => simp
  | cons a t ih =>
    have ha : p a = true := h a (List.mem_cons_self a t)
    simp only [List.cons_append, List.dropWhile_cons, ha, if_true]
    exact ih (fun x hx => h x (List.mem_cons_of_mem a hx))

/-- dropWhile over an append, when the left part already stops the scan. -/
theorem dropWhile_append_stop {p : Char → Bool} {l1 : List Char} {r : Char}
    {rs : List Char} (l2 : List Char) (h : List.dropWhile p l1 = r :: rs) :
    List.dropWhile p (l1 ++ l2) = r :: rs ++ l2 := by
  induction l1 with
  | nil => simp [List.dropWhile] at h
  | cons a t ih =>
    rw [List.dropWhile_cons] at h
    by_cases hp : p a = true
    · rw [if_pos hp] at h
      simp only [List.cons_append, List.dropWhile_cons, hp, if_true]
      exact ih h
    · rw [if_neg hp] at h
      cases h
      rw [List.cons_append, List.dropWhile_cons, if_neg hp]

/-- takeWhile over an append, when the left part already stops the scan. -/
theorem takeWhile_append_stop {p : Char → Bool} {l1 : List Char} {r : Char}
    {rs : List Char} (l2 : List Char) (h : List.dropWhile p l1 = r :: rs) :
    List.takeWhile p (l1 ++ l2) = List.takeWhile p l1 := by
  induction l1 with
  | nil => simp [List.dropWhile] at h
  | cons a t ih =>
    rw [List.dropWhile_cons] at h
    by_cases hp : p a = true
    · rw [if_pos hp] at h
      simp only [List.cons_append, List.takeWhile_cons, hp, if_true]
      rw [ih h]
    · rw [List.cons_append, List.takeWhile_cons, List.takeWhile_cons, if_neg hp, if_neg hp]

/-- A list headed by a character other than an opening brace has an adjacent
double opening brace exactly when its tail has one. -/
theorem hasLL_cons_of_ne {x : Char} (t : List Char) (hx : x ≠ lbrace) :
    hasLL (x :: t) = hasLL t := by
  match t with
  | [] => simp [hasLL]
  | y :: ys =>
    show ((x == lbrace && y == lbrace) || hasLL (y :: ys)) = hasLL (y :: ys)
    have hb : (x == lbrace) = false := by simpa using hx
    simp [hb]

/-- Appending a list free of opening braces preserves freedom from double
opening braces. -/
theorem hasLL_append_clean {a : List Char} (b : List Char)
    (ha : ∀ ch ∈ a, ch ≠ lbrace) (hb : hasLL b = false) :
    hasLL (a ++ b) = false := by
  induction a with
  | nil => simpa using hb
  | cons x t ih =>
    have hx : x ≠ lbrace := ha x (List.mem_cons_self x t)
    rw [List.cons_append, hasLL_cons_of_ne _ hx]
    exact ih (fun ch hc => ha ch (List.mem_cons_of_mem x hc))

/-- A successful lookup comes from a pair of the table. -/
theorem lookupVar_mem {k v : String} :
    ∀ table : List (String × String), lookupVar k table = some v → (k, v) ∈ table := by
  intro table
  induction table with
  | nil => intro h; simp [lookupVar] at h
  | cons kv rest ih =>
    intro h
    rcases kv with ⟨k2, v2⟩
    rw [lookupVar] at h
    by_cases hk : (k == k2) = true
    · rw [if_pos hk] at h
      injection h with hv
      subst hv
      have hkk : k = k2 := by simpa using hk
      subst hkk
      exact List.mem_cons_self _ _
    · rw [if_neg (by simpa using hk)] at h
      exact List.mem_cons_of_mem _ (ih h)

/-- Keys listed in the table's first components are found by lookup. -/
theorem lookupVar_isSome_of_mem {k : String} :
    ∀ table : List (String × String), k ∈ table.map Prod.fst →
      (lookupVar k table).isSome = true := by
  intro table
  induction table with
  | nil => intro h; simp at h
  | cons kv rest ih =>
    intro h
    rcases kv with ⟨k2, v2⟩
    rw [lookupVar]
    by_cases hk : (k == k2) = true
    · rw [if_pos hk]
      rfl
    · rw [if_neg (by simpa using hk)]
      apply ih
      simp only [List.map_cons, List.mem_cons] at h
      rcases h with h | h
      · exact absurd (by simpa using h : k = k2) (by simpa using hk)
      · exact h

/-- Substitution succeeds on a well-formed string whose keys are all in the
table. -/
theorem substChars_ok_of_keys (table : List (String × String)) (path : String) :
    ∀ (N : Nat) (cs : List Char), cs.length ≤ N →
      ∀ ks, scanTokens cs = some ks →
        (∀ k ∈ ks, (lookupVar k table).isSome = true) →
        ∃ out, substChars table path cs = Except.ok out := by
  intro N
  induction N with
  | zero =>
    intro cs hlen ks hscan hkeys
    have hnil : cs = [] := List.length_eq_zero.mp (by omega)
    subst hnil
    exact ⟨[], substChars_nil table path⟩
  | succ N ih =>
    intro cs hlen ks hscan hkeys
    match cs with
    | [] => exact ⟨[], substChars_nil table path⟩
    | [c] => exact ⟨[c], substChars_single table path c⟩
    | c :: c2 :: cs2 =>
      simp only [List.length_cons] at hlen
      by_cases hcc : (c == lbrace && c2 == lbrace) = true
      · simp only [Bool.and_eq_true, beq_iff_eq] at hcc
        obtain ⟨rfl, rfl⟩ := hcc
        rcases hdw : List.dropWhile (fun x => x != rbrace) cs2 with _ | ⟨r1, _ | ⟨r2, tail⟩⟩
        · rw [scanTokens_token_bad_nil hdw] at hscan
          exact absurd hscan (by simp)
        · rw [scanTokens_token_bad_one hdw] at hscan
          exact absurd hscan (by simp)
        · by_cases hr2 : (r2 == rbrace) = true
          · have htl : tail.length + 2 ≤ cs2.length := by
              have h1 := length_dropWhile_le (fun x => x != rbrace) cs2
              rw [hdw] at h1
              simp only [List.length_cons] at h1
              omega
            rw [scanTokens_token hdw hr2] at hscan
            rcases h2 : scanTokens tail with _ | ks2
            · rw [h2] at hscan
              exact absurd hscan (by simp)
            · rw [h2] at hscan
              simp only [Option.map] at hscan
              injection hscan with hks
              subst hks
              have hsome := hkeys _ (List.mem_cons_self _ _)
              rcases Option.isSome_iff_exists.mp hsome with ⟨v, hv⟩
              obtain ⟨out, hout⟩ :=
                ih tail (by omega) ks2 h2
                  (fun k hk => hkeys k (List.mem_cons_of_mem _ hk))
              refine ⟨v.toList ++ out, ?_⟩
              rw [substChars_token_found table path hdw hr2 hv, hout]
              rfl
          · rw [scanTokens_token_bad_r2 hdw (by simpa using hr2)] at hscan
            exact absurd hscan (by simp)
      · have hcc2 : (c == lbrace && c2 == lbrace) = false := by simpa using hcc
        rw [scanTokens_copy cs2 hcc2] at hscan
        obtain ⟨out, hout⟩ := ih (c2 :: cs2) (by simp; omega) ks hscan hkeys
        refine ⟨c :: out, ?_⟩
        rw [substChars_copy table path cs2 hcc2, hout]
        rfl

/-- All scanned keys of a string that substitutes successfully are present in
the table. -/
theorem keys_present_of_substChars_ok (table : List (String × String)) (path : String) :
    ∀ (N : Nat) (cs : List Char), cs.length ≤ N →
      ∀ ks out, scanTokens cs = some ks →
        substChars table path cs = Except.ok out →
        ∀ k ∈ ks, (lookupVar k table).isSome = true := by
  intro N
  induction N with
  | zero =>
    intro cs hlen ks out hscan hsub
    have hnil : cs = [] := List.length_eq_zero.mp (by omega)
    subst hnil
    rw [scanTokens_nil] at hscan
    injection hscan with hks
    subst hks
    intro k hk
    simp at hk
  | succ N ih =>
    intro cs hlen ks out hscan hsub
    match cs with
    | [] =>
      rw [scanTokens_nil] at hscan
      injection hscan with hks
      subst hks
      intro k hk
      simp at hk
    | [c] =>
      rw [scanTokens_single] at hscan
      injection hscan with hks
      subst hks
      intro k hk
      simp at hk
    | c :: c2 :: cs2 =>
      simp only [List.length_cons] at hlen
      by_cases hcc : (c == lbrace && c2 == lbrace) = true
      · simp only [Bool.and_eq_true, beq_iff_eq] at hcc
        obtain ⟨rfl, rfl⟩ := hcc
        rcases hdw : List.dropWhile (fun x => x != rbrace) cs2 with _ | ⟨r1, _ | ⟨r2, tail⟩⟩
        · rw [scanTokens_token_bad_nil hdw] at hscan
          exact absurd hscan (by simp)
        · rw [scanTokens_token_bad_one hdw] at hscan
          exact absurd hscan (by simp)
        · by_cases hr2 : (r2 == rbrace) = true
          · have htl : tail.length + 2 ≤ cs2.length := by
              have h1 := length_dropWhile_le (fun x => x != rbrace) cs2
              rw [hdw] at h1
              simp only [List.length_cons] at h1
              omega
            rw [scanTokens_token hdw hr2] at hscan
            rcases h2 : scanTokens tail with _ | ks2
            · rw [h2] at hscan
              exact absurd hscan (by simp)
            rw [h2] at hscan
            simp only [Option.map] at hscan
            injection hscan with hks
            subst hks
            rcases hlk : lookupVar (String.mk (List.takeWhile (fun x => x != rbrace) cs2)) table with _ | v
            · rw [substChars_token_absent table path hdw hr2 hlk] at hsub
              exact absurd hsub (by simp)
            · rw [substChars_token_found table path hdw hr2 hlk] at hsub
              rcases h3 : substChars table path tail with u | out2
              · rw [h3] at hsub
                exact absurd hsub (by simp [Except.map])
              have hrec := ih tail (by omega) ks2 out2 h2 h3
              intro k hk
              rcases List.mem_cons.mp hk with rfl | hk2
              · rw [hlk]
                rfl
              · exact hrec k hk2
          · rw [scanTokens_token_bad_r2 hdw (by simpa using hr2)] at hscan
            exact absurd hscan (by simp)
      · have hcc2 : (c == lbrace && c2 == lbrace) = false := by simpa using hcc
        rw [scanTokens_copy cs2 hcc2] at hscan
        rw [substChars_copy table path cs2 hcc2] at hsub
        rcases h3 : substChars table path (c2 :: cs2) with u | out2
        · rw [h3] at hsub
          exact absurd hsub (by simp [Except.map])
        exact ih (c2 :: cs2) (by simp; omega) ks out2 hscan h3

/-- A substitution error on a well-formed string names the entry's path and a
key that occurs in the string and is absent from the table. -/
theorem substChars_error_spec (table : List (String × String)) (path : String) :
    ∀ (N : Nat) (cs : List Char), cs.length ≤ N →
      ∀ ks u, scanTokens cs = some ks →
        substChars table path cs = Except.error u →
        u.path = path ∧ u.key ∈ ks ∧ lookupVar u.key table = none := by
  intro N
  induction N with
  | zero =>
    intro cs hlen ks u hscan hsub
    have hnil : cs = [] := List.length_eq_zero.mp (by omega)
    subst hnil
    rw [substChars_nil] at hsub
    exact absurd hsub (by simp)
  | succ N ih =>
    intro cs hlen ks u hscan hsub
    match cs with
    | [] =>
      rw [substChars_nil] at hsub
      exact absurd hsub (by simp)
    | [c] =>
      rw [substChars_single] at hsub
      exact absurd hsub (by simp)
    | c :: c2 :: cs2 =>
      simp only [List.length_cons] at hlen
      by_cases hcc : (c == lbrace && c2 == lbrace) = true
      · simp only [Bool.and_eq_true, beq_iff_eq] at hcc
        obtain ⟨rfl, rfl⟩ := hcc
        rcases hdw : List.dropWhile (fun x => x != rbrace) cs2 with _ | ⟨r1, _ | ⟨r2, tail⟩⟩
        · rw [scanTokens_token_bad_nil hdw] at hscan
          exact absurd hscan (by simp)
        · rw [scanTokens_token_bad_one hdw] at hscan
          exact absurd hscan (by simp)
        · by_cases hr2 : (r2 == rbrace) = true
          · have htl : tail.length + 2 ≤ cs2.length := by
              have h1 := length_dropWhile_le (fun x => x != rbrace) cs2
              rw [hdw] at h1
              simp only [List.length_cons] at h1
              omega
            rw [scanTokens_token hdw hr2] at hscan
            rcases h2 : scanTokens tail with _ | ks2
            · rw [h2] at hscan
              exact absurd hscan (by simp)
            rw [h2] at hscan
            simp only [Option.map] at hscan
            injection hscan with hks
            subst hks
            rcases hlk : lookupVar (String.mk (List.takeWhile (fun x => x != rbrace) cs2)) table with _ | v
            · rw [substChars_token_absent table path hdw hr2 hlk] at hsub
              injection hsub with hu
              subst hu
              exact ⟨rfl, List.mem_cons_self _ _, hlk⟩
            · rw [substChars_token_found table path hdw hr2 hlk] at hsub
              rcases h3 : substChars table path tail with u2 | out2
              · rw [h3] at hsub
                simp only [Except.map] at hsub
                injection hsub with hu
                obtain ⟨hp, hm, hl⟩ := ih tail (by omega) ks2 u2 h2 h3
                rw [← hu]
                exact ⟨hp, List.mem_cons_of_mem _ hm, hl⟩
              · rw [h3] at hsub
                exact absurd hsub (by simp [Except.map])
          · rw [scanTokens_token_bad_r2 hdw (by simpa using hr2)] at hscan
            exact absurd hscan (by simp)
      · have hcc2 : (c == lbrace && c2 == lbrace) = false := by simpa using hcc
        rw [scanTokens_copy cs2 hcc2] at hscan
        rw [substChars_copy table path cs2 hcc2] at hsub
        rcases h3 : substChars table path (c2 :: cs2) with u2 | out2
        · rw [h3] at hsub
          simp only [Except.map] at hsub
          injection hsub with hu
          rw [← hu]
          exact ih (c2 :: cs2) (by simp; omega) ks u2 hscan h3
        · rw [h3] at hsub
          exact absurd hsub (by simp [Except.map])

/-- Successful substitution with a table whose values are free of opening
braces yields output with no adjacent double opening brace; moreover the
output starts with an opening brace only when the input does. -/
theorem substChars_ok_clean (table : List (String × String)) (path : String)
    (hclean : ∀ kv ∈ table, ∀ ch ∈ kv.2.toList, ch ≠ lbrace) :
    ∀ (N : Nat) (cs : List Char), cs.length ≤ N →
      ∀ out, substChars table path cs = Except.ok out →
        hasLL out = false ∧ (∀ b, out = lbrace :: b → ∃ d, cs = lbrace :: d) := by
  intro N
  induction N with
  | zero =>
    intro cs hlen out hsub
    have hnil : cs = [] := List.length_eq_zero.mp (by omega)
    subst hnil
    rw [substChars_nil] at hsub
    injection hsub with hout
    subst hout
    exact ⟨rfl, fun b hb => by simp at hb⟩
  | succ N ih =>
    intro cs hlen out hsub
    match cs with
    | [] =>
      rw [substChars_nil] at hsub
      injection hsub with hout
      subst hout
      exact ⟨rfl, fun b hb => by simp at hb⟩
    | [c] =>
      rw [substChars_single] at hsub
      injection hsub with hout
      subst hout
      refine ⟨rfl, fun b hb => ?_⟩
      injection hb with hc hb2
      subst hc
      exact ⟨[], rfl⟩
    | c :: c2 :: cs2 =>
      simp only [List.length_cons] at hlen
      by_cases hcc : (c == lbrace && c2 == lbrace) = true
      · simp only [Bool.and_eq_true, beq_iff_eq] at hcc
        obtain ⟨rfl, rfl⟩ := hcc
        rcases hdw : List.dropWhile (fun x => x != rbrace) cs2 with _ | ⟨r1, _ | ⟨r2, tail⟩⟩
        · rw [substChars_token_bad_nil table path hdw] at hsub
          exact absurd hsub (by simp)
        · rw [substChars_token_bad_one table path hdw] at hsub
          exact absurd hsub (by simp)
        · by_cases hr2 : (r2 == rbrace) = true
          · have htl : tail.length + 2 ≤ cs2.length := by
              have h1 := length_dropWhile_le (fun x => x != rbrace) cs2
              rw [hdw] at h1
              simp only [List.length_cons] at h1
              omega
            rcases hlk : lookupVar (String.mk (List.takeWhile (fun x => x != rbrace) cs2)) table with _ | v
            · rw [substChars_token_absent table path hdw hr2 hlk] at hsub
              exact absurd hsub (by simp)
            · rw [substChars_token_found table path hdw hr2 hlk] at hsub
              rcases h3 : substChars table path tail with u | out2
              · rw [h3] at hsub
                exact absurd hsub (by simp [Except.map])
              rw [h3] at hsub
              simp only [Except.map] at hsub
              injection hsub with hout
              subst hout
              obtain ⟨hll, _⟩ := ih tail (by omega) out2 h3
              have hv : ∀ ch ∈ v.toList, ch ≠ lbrace :=
                hclean _ (lookupVar_mem table hlk)
              exact ⟨hasLL_append_clean out2 hv hll, fun b hb => ⟨lbrace :: cs2, rfl⟩⟩
          · have hr2f : (r2 == rbrace) = false := by simpa using hr2
            rw [substChars_token_bad_r2 table path hdw hr2f] at hsub
            exact absurd hsub (by simp)
      · have hcc2 : (c == lbrace && c2 == lbrace) = false := by simpa using hcc
        rw [substChars_copy table path cs2 hcc2] at hsub
        rcases h3 : substChars table path (c2 :: cs2) with u | out2
        · rw [h3] at hsub
          exact absurd hsub (by simp [Except.map])
        rw [h3] at hsub
        simp only [Except.map] at hsub
        injection hsub with hout
        subst hout
        obtain ⟨hll, hhead⟩ := ih (c2 :: cs2) (by simp; omega) out2 h3
        constructor
        · rcases out2 with _ | ⟨b, t⟩
          · rfl
          · show ((c == lbrace && b == lbrace) || hasLL (b :: t)) = false
            rw [hll]
            by_cases hc : (c == lbrace) = true
            · by_cases hb : (b == lbrace) = true
              · have hbe : b = lbrace := by simpa using hb
                subst hbe
                obtain ⟨d, hd⟩ := hhead t rfl
                injection hd with hd1 hd2
                rw [hd1] at hcc2
                simp [hc] at hcc2
              · simp [hb]
            · simp [hc]
        · intro b hb
          injection hb with hc hb2
          subst hc
          exact ⟨c2 :: cs2, rfl⟩

/-- Substitution passes a brace-free prefix through verbatim. -/
theorem substChars_append_clean (table : List (String × String)) (path : String) :
    ∀ (pre rest : List Char), (∀ ch ∈ pre, ch ≠ lbrace) →
      substChars table path (pre ++ rest) =
        Except.map (fun t => pre ++ t) (substChars table path rest) := by
  intro pre
  induction pre with
  | nil =>
    intro rest h
    rcases hx : substChars table path rest with u | o <;> simp [hx, Except.map]
  | cons a t ih =>
    intro rest h
    have ha : a ≠ lbrace := h a (List.mem_cons_self a t)
    rcases htr : t ++ rest with _ | ⟨d, ds⟩
    · rcases List.append_eq_nil.mp htr with ⟨rfl, rfl⟩
      simp only [List.append_nil]
      rw [substChars_nil]
      simp [substChars_single, Except.map]
    · have hguard : (a == lbrace && d == lbrace) = false := by
        have hb : (a == lbrace) = false := by simpa using ha
        simp [hb]
      rw [List.cons_append, htr, substChars_copy table path ds hguard, ← htr,
        ih rest (fun ch hc => h ch (List.mem_cons_of_mem a hc))]
      rcases hx : substChars table path rest with u | o <;> simp [Except.map]

/-- Substitution of a leading well-formed token whose key is present: the
value is emitted verbatim in front, and is never re-scanned, even when it
itself contains token text. -/
theorem substChars_token_front (table : List (String × String)) (path : String)
    {k v : String} (rest : List Char)
    (hlk : lookupVar k table = some v) (hrb : rbrace ∉ k.toList) :
    substChars table path (lbrace :: lbrace :: (k.toList ++ rbrace :: rbrace :: rest)) =
      Except.map (fun t => v.toList ++ t) (substChars table path rest) := by
  have hall : ∀ x ∈ k.toList, ((fun x => x != rbrace) x) = true := by
    intro x hx
    have hne : x ≠ rbrace := fun he => hrb (he ▸ hx)
    simpa using hne
  have htw : List.takeWhile (fun x => x != rbrace)
      (k.toList ++ rbrace :: rbrace :: rest) = k.toList := by
    rw [takeWhile_append_all _ hall, List.takeWhile_cons]
    simp
  have hdw : List.dropWhile (fun x => x != rbrace)
      (k.toList ++ rbrace :: rbrace :: rest) = rbrace :: rbrace :: rest := by
    rw [dropWhile_append_all _ hall, List.dropWhile_cons]
    simp
  have hk : String.mk k.toList = k := by
    cases k
    rfl
  have hlk2 : lookupVar (String.mk (List.takeWhile (fun x => x != rbrace)
      (k.toList ++ rbrace :: rbrace :: rest))) table = some v := by
    rw [htw, hk]
    exact hlk
  rw [substChars_token_found table path hdw (by simp) hlk2]

/-- The token scanner distributes over an append whose left part is
well-formed and does not end in an opening brace. -/
theorem scanTokens_append :
    ∀ (N : Nat) (a : List Char), a.length ≤ N →
      ∀ (b : List Char) (ka kb : List String),
        scanTokens a = some ka →
        (∀ x, a.getLast? = some x → x ≠ lbrace) →
        scanTokens b = some kb →
        scanTokens (a ++ b) = some (ka ++ kb) := by
  intro N
  induction N with
  | zero =>
    intro a hlen b ka kb hsa hlast hsb
    have hnil : a = [] := List.length_eq_zero.mp (by omega)
    subst hnil
    rw [scanTokens_nil] at hsa
    injection hsa with hka
    subst hka
    simpa using hsb
  | succ N ih =>
    intro a hlen b ka kb hsa hlast hsb
    match a with
    | [] =>
      rw [scanTokens_nil] at hsa
      injection hsa with hka
      subst hka
      simpa using hsb
    | [c] =>
      rw [scanTokens_single] at hsa
      injection hsa with hka
      subst hka
      have hc : c ≠ lbrace := hlast c rfl
      rcases b with _ | ⟨d, ds⟩
      · rw [List.append_nil, scanTokens_single]
        rw [scanTokens_nil] at hsb
        injection hsb with hkb
        subst hkb
        rfl
      · have hguard : (c == lbrace && d == lbrace) = false := by
          have hb : (c == lbrace) = false := by simpa using hc
          simp [hb]
        show scanTokens (c :: d :: ds) = some ([] ++ kb)
        rw [scanTokens_copy ds hguard, hsb]
        rfl
    | c :: c2 :: cs2 =>
      simp only [List.length_cons] at hlen
      by_cases hcc : (c == lbrace && c2 == lbrace) = true
      · simp only [Bool.and_eq_true, beq_iff_eq] at hcc
        obtain ⟨rfl, rfl⟩ := hcc
        rcases hdw : List.dropWhile (fun x => x != rbrace) cs2 with _ | ⟨r1, _ | ⟨r2, tail⟩⟩
        · rw [scanTokens_token_bad_nil hdw] at hsa
          exact absurd hsa (by simp)
        · rw [scanTokens_token_bad_one hdw] at hsa
          exact absurd hsa (by simp)
        · by_cases hr2 : (r2 == rbrace) = true
          · have htl : tail.length + 2 ≤ cs2.length := by
              have h1 := length_dropWhile_le (fun x => x != rbrace) cs2
              rw [hdw] at h1
              simp only [List.length_cons] at h1
              omega
            rw [scanTokens_token hdw hr2] at hsa
            rcases h2 : scanTokens tail with _ | ka2
            · rw [h2] at hsa
              exact absurd hsa (by simp)
            rw [h2] at hsa
            simp only [Option.map] at hsa
            injection hsa with hka
            subst hka
            have hdwb : List.dropWhile (fun x => x != rbrace) (cs2 ++ b) =
                r1 :: r2 :: (tail ++ b) := by
              have h3 := dropWhile_append_stop b hdw
              simpa using h3
            have htwb : List.takeWhile (fun x => x != rbrace) (cs2 ++ b) =
                List.takeWhile (fun x => x != rbrace) cs2 :=
              takeWhile_append_stop b hdw
            have hsplit : List.takeWhile (fun x => x != rbrace) cs2 ++
                List.dropWhile (fun x => x != rbrace) cs2 = cs2 :=
              List.takeWhile_append_dropWhile (fun x => x != rbrace) cs2
            have hstep : scanTokens ((lbrace :: lbrace :: cs2) ++ b) =
                Option.map (fun ks => String.mk (List.takeWhile (fun x => x != rbrace)
                  (cs2 ++ b)) :: ks) (scanTokens (tail ++ b)) := by
              show scanTokens (lbrace :: lbrace :: (cs2 ++ b)) = _
              exact scanTokens_token hdwb hr2
            rcases tail with _ | ⟨x, xs⟩
            · rw [scanTokens_nil] at h2
              injection h2 with hka2
              subst hka2
              rw [hstep, htwb]
              simp only [List.nil_append]
              rw [hsb]
              rfl
            · have hlast2 : ∀ y, (x :: xs).getLast? = some y → y ≠ lbrace := by
                intro y hy
                apply hlast y
                have hre : lbrace :: lbrace :: cs2 =
                    (lbrace :: lbrace :: (List.takeWhile (fun z => z != rbrace) cs2 ++
                      [r1, r2])) ++ (x :: xs) := by
                  conv_lhs => rw [← hsplit]
                  simp [hdw]
                rw [hre, List.getLast?_append_of_ne_nil _ (by simp)]
                exact hy
              have hrec := ih (x :: xs) (by omega) b ka2 kb h2 hlast2 hsb
              rw [hstep, htwb, hrec]
              rfl
          · rw [scanTokens_token_bad_r2 hdw (by simpa using hr2)] at hsa
            exact absurd hsa (by simp)
      · have hcc2 : (c == lbrace && c2 == lbrace) = false := by simpa using hcc
        rw [scanTokens_copy cs2 hcc2] at hsa
        have hlast2 : ∀ x, (c2 :: cs2).getLast? = some x → x ≠ lbrace := by
          intro x hx
          apply hlast x
          rw [List.getLast?_cons_cons]
          exact hx
        have hrec := ih (c2 :: cs2) (by simp; omega) b ka kb hsa hlast2 hsb
        show scanTokens (c :: c2 :: (cs2 ++ b)) = some (ka ++ kb)
        rw [scanTokens_copy (cs2 ++ b) hcc2]
        exact hrec

/-- Line-by-line scanning agrees with scanning the whole file. -/
theorem scanTokens_linesChars :
    ∀ (ls : List String) (ks : List String), scanLines ls = some ks →
      scanTokens (linesChars ls) = some ks := by
  intro ls
  induction ls with
  | nil =>
    intro ks h
    exact h
  | cons l ls ih =>
    intro ks h
    rcases ls with _ | ⟨l2, ls2⟩
    · exact h
    · simp only [scanLines] at h
      rcases h1 : scanTokens (l.toList ++ [newline]) with _ | ka
      · rw [h1] at h
        exact absurd h (by simp)
      rcases h2 : scanLines (l2 :: ls2) with _ | kb
      · rw [h2] at h
        rw [h1] at h
        exact absurd h (by simp)
      rw [h1, h2] at h
      dsimp only at h
      injection h with hks
      subst hks
      have hrec := ih kb h2
      have hshape : linesChars (l :: l2 :: ls2) =
          (l.toList ++ [newline]) ++ linesChars (l2 :: ls2) := by
        simp only [linesChars]
        simp
      rw [hshape]
      have hlast : ∀ x, (l.toList ++ [newline]).getLast? = some x → x ≠ lbrace := by
        intro x hx
        rw [List.getLast?_concat] at hx
        injection hx with hxe
        subst hxe
        decide
      exact scanTokens_append (l.toList ++ [newline]).length (l.toList ++ [newline])
        (le_refl _) (linesChars (l2 :: ls2)) ka kb h1 hlast hrec

/-- Identifier characters are not opening braces. -/
theorem isNameChar_ne_lbrace {c : Char} (h : isNameChar c = true) : c ≠ lbrace := by
  intro he
  subst he
  exact absurd h (by decide)

/-- Every character of a valid canonical name is an identifier character. -/
theorem validName_chars {n : String} (h : validName n = true) :
    ∀ ch ∈ n.toList, isNameChar ch = true := by
  simp only [validName] at h
  rcases hn : n.toList with _ | ⟨c, cs⟩
  · rw [hn] at h
    exact absurd h (by simp)
  · rw [hn] at h
    dsimp only at h
    simp only [Bool.and_eq_true] at h
    intro ch hch
    rcases List.mem_cons.mp hch with rfl | hch2
    · simp [isNameChar, h.1]
    · exact List.all_eq_true.mp h.2 ch hch2

/-- The upper-name derivation never emits an opening brace. -/
theorem upperNameChar_ne_lbrace (c : Char) : upperNameChar c ≠ lbrace := by
  rw [upperNameChar]
  by_cases hc : (c.isAlpha || c.isDigit) = true
  · rw [if_pos hc]
    apply toUpper_ne_lbrace
    intro he
    subst he
    exact absurd hc (by decide)
  · rw [if_neg hc]
    decide

/-- The snake derivation step never emits an opening brace when fed an
identifier character. -/
theorem snakeChar_ne_lbrace {c : Char} (h : isNameChar c = true) :
    ∀ ch ∈ snakeChar c, ch ≠ lbrace := by
  rw [snakeChar]
  split
  · intro ch hch
    rcases List.mem_cons.mp hch with rfl | hch2
    · decide
    · have hcl : ch ∈ [c.toLower] := hch2
      simp only [List.mem_singleton] at hcl
      subst hcl
      apply toLower_ne_lbrace
      exact isNameChar_ne_lbrace h
  · split
    · intro ch hch
      simp only [List.mem_singleton] at hch
      subst hch
      decide
    · intro ch hch
      simp only [List.mem_singleton] at hch
      subst hch
      exact isNameChar_ne_lbrace h

/-- Values of the variable table of a valid canonical name contain no opening
brace. -/
theorem buildTable_clean {n : String} (h : validName n = true) :
    ∀ kv ∈ buildTable n, ∀ ch ∈ kv.2.toList, ch ≠ lbrace := by
  have hname : ∀ ch ∈ n.toList, ch ≠ lbrace := fun ch hch =>
    isNameChar_ne_lbrace (validName_chars h ch hch)
  intro kv hkv
  simp only [buildTable, List.mem_cons, List.mem_singleton] at hkv
  rcases hkv with rfl | rfl | rfl | hkv
  case inr.inr.inr => exact absurd hkv (List.not_mem_nil kv)
  · exact hname
  · intro ch hch
    have hch2 : ch ∈ n.toList.map upperNameChar := hch
    rcases List.mem_map.mp hch2 with ⟨c, _, rfl⟩
    exact upperNameChar_ne_lbrace c
  · intro ch hch
    simp only [deriveSnake] at hch
    rcases hn : n.toList with _ | ⟨c, cs⟩
    · rw [hn] at hch
      rw [show (String.mk ([] : List Char)).toList = [] from rfl] at hch
      exact absurd hch (List.not_mem_nil ch)
    · rw [hn] at hch
      dsimp only at hch
      rcases List.mem_cons.mp hch with rfl | hch2
      · apply toLower_ne_lbrace
        apply isNameChar_ne_lbrace
        apply validName_chars h
        rw [hn]
        exact List.mem_cons_self _ _
      · rcases List.mem_flatten.mp hch2 with ⟨part, hpart, hchp⟩
        rcases List.mem_map.mp hpart with ⟨c2, hc2, rfl⟩
        apply snakeChar_ne_lbrace _ ch hchp
        apply validName_chars h
        rw [hn]
        exact List.mem_cons_of_mem _ hc2

/-- Entry-level substitution success implies every token key of the entry is
present in the table. -/
theorem substituteEntry_ok_keys {table : List (String × String)} {e : Entry}
    {r : Entry} {ks : List String} (hse : substituteEntry table e = Except.ok r)
    (hts : entryTokens e = some ks) :
    ∀ k ∈ ks, (lookupVar k table).isSome = true := by
  rw [substituteEntry] at hse
  rw [entryTokens] at hts
  rcases h1 : substChars table e.path e.path.toList with u | p
  · rw [h1] at hse
    exact absurd hse (by simp)
  rw [h1] at hse
  rcases h2 : substChars table e.path e.content.toList with u | c
  · rw [h2] at hse
    exact absurd hse (by simp)
  rcases hs1 : scanTokens e.path.toList with _ | pk
  · rw [hs1] at hts
    exact absurd hts (by simp)
  rcases hs2 : scanTokens e.content.toList with _ | ck
  · rw [hs1, hs2] at hts
    exact absurd hts (by simp)
  rw [hs1, hs2] at hts
  dsimp only at hts
  injection hts with hks
  subst hks
  intro k hk
  rcases List.mem_append.mp hk with hkp | hkc
  · exact keys_present_of_substChars_ok table e.path e.path.toList.length
      e.path.toList (le_refl _) pk p hs1 h1 k hkp
  · exact keys_present_of_substChars_ok table e.path e.content.toList.length
      e.content.toList (le_refl _) ck c hs2 h2 k hkc

/-- Entry-level substitution succeeds when every token key of the entry is
present in the table. -/
theorem substituteEntry_ok_of_keys {table : List (String × String)} {e : Entry}
    {ks : List String} (hts : entryTokens e = some ks)
    (hkeys : ∀ k ∈ ks, (lookupVar k table).isSome = true) :
    ∃ r, substituteEntry table e = Except.ok r := by
  rw [entryTokens] at hts
  rcases hs1 : scanTokens e.path.toList with _ | pk
  · rw [hs1] at hts
    exact absurd hts (by simp)
  rcases hs2 : scanTokens e.content.toList with _ | ck
  · rw [hs1, hs2] at hts
    exact absurd hts (by simp)
  rw [hs1, hs2] at hts
  dsimp only at hts
  injection hts with hks
  subst hks
  obtain ⟨p, hp⟩ := substChars_ok_of_keys table e.path e.path.toList.length
    e.path.toList (le_refl _) pk hs1
    (fun k hk => hkeys k (List.mem_append.mpr (Or.inl hk)))
  obtain ⟨c, hc⟩ := substChars_ok_of_keys table e.path e.content.toList.length
    e.content.toList (le_refl _) ck hs2
    (fun k hk => hkeys k (List.mem_append.mpr (Or.inr hk)))
  refine ⟨⟨String.mk p, String.mk c⟩, ?_⟩
  rw [substituteEntry, hp, hc]

/-- Entry-level substitution failure on a well-formed entry reports the
entry's template path and an absent key occurring in the entry. -/
theorem substituteEntry_error_spec {table : List (String × String)} {e : Entry}
    {u : UnresolvedTokenError} {ks : List String}
    (hse : substituteEntry table e = Except.error u)
    (hts : entryTokens e = some ks) :
    u.path = e.path ∧ u.key ∈ ks ∧ lookupVar u.key table = none := by
  rw [substituteEntry] at hse
  rw [entryTokens] at hts
  rcases hs1 : scanTokens e.path.toList with _ | pk
  · rw [hs1] at hts
    exact absurd hts (by simp)
  rcases hs2 : scanTokens e.content.toList with _ | ck
  · rw [hs1, hs2] at hts
    exact absurd hts (by simp)
  rw [hs1, hs2] at hts
  dsimp only at hts
  injection hts with hks
  subst hks
  rcases h1 : substChars table e.path e.path.toList with u2 | p
  · rw [h1] at hse
    injection hse with hu
    subst hu
    obtain ⟨ha, hb, hc⟩ := substChars_error_spec table e.path e.path.toList.length
      e.path.toList (le_refl _) pk u2 hs1 h1
    exact ⟨ha, List.mem_append.mpr (Or.inl hb), hc⟩
  rw [h1] at hse
  rcases h2 : substChars table e.path e.content.toList with u2 | c
  · rw [h2] at hse
    injection hse with hu
    subst hu
    obtain ⟨ha, hb, hc⟩ := substChars_error_spec table e.path e.content.toList.length
      e.content.toList (le_refl _) ck u2 hs2 h2
    exact ⟨ha, List.mem_append.mpr (Or.inr hb), hc⟩
  · rw [h2] at hse
    exact absurd hse (by simp)

/-- Entry-level substitution with a clean table yields a path and content
free of double opening braces. -/
theorem substituteEntry_ok_clean {table : List (String × String)} {e : Entry}
    {r : Entry} (hse : substituteEntry table e = Except.ok r)
    (hclean : ∀ kv ∈ table, ∀ ch ∈ kv.2.toList, ch ≠ lbrace) :
    hasLL r.path.toList = false ∧ hasLL r.content.toList = false := by
  rw [substituteEntry] at hse
  rcases h1 : substChars table e.path e.path.toList with u | p
  · rw [h1] at hse
    exact absurd hse (by simp)
  rw [h1] at hse
  rcases h2 : substChars table e.path e.content.toList with u | c
  · rw [h2] at hse
    exact absurd hse (by simp)
  rw [h2] at hse
  injection hse with hr
  subst hr
  constructor
  · exact (substChars_ok_clean table e.path hclean e.path.toList.length
      e.path.toList (le_refl _) p h1).1
  · exact (substChars_ok_clean table e.path hclean e.content.toList.length
      e.content.toList (le_refl _) c h2).1

/-- Every file on the destination filesystem after a run either predates the
run or is free of double opening braces in both path and content. -/
theorem runEntries_disk_clean (table : List (String × String))
    (wf : Entry → Option String)
    (hclean : ∀ kv ∈ table, ∀ ch ∈ kv.2.toList, ch ≠ lbrace) :
    ∀ (es : List Entry) (disk : List (String × String)),
      ∀ pc ∈ (runEntries table wf es disk).disk,
        pc ∈ disk ∨ (hasLL pc.1.toList = false ∧ hasLL pc.2.toList = false) := by
  intro es
  induction es with
  | nil =>
    intro disk pc hpc
    exact Or.inl hpc
  | cons e es ih =>
    intro disk pc hpc
    rcases hse : substituteEntry table e with u | r
    · simp only [runEntries, hse] at hpc
      exact Or.inl hpc
    · rcases hwf : wf r with _ | reason
      · simp only [runEntries, hse, hwf] at hpc
        rcases ih (disk ++ [(r.path, r.content)]) pc hpc with hmem | hc
        · rcases List.mem_append.mp hmem with h1 | h2
          · exact Or.inl h1
          · simp only [List.mem_singleton] at h2
            subst h2
            exact Or.inr (substituteEntry_ok_clean hse hclean)
        · exact Or.inr hc
      · simp only [runEntries, hse, hwf] at hpc
        exact Or.inl hpc

/-- With no write failures, a template set containing an entry with an absent
key makes the run abort with an unresolved-token error whose key is absent
from the table and occurs in the entry whose path the error names. -/
theorem runEntries_unresolved (table : List (String × String)) :
    ∀ (ts : List Entry) (disk : List (String × String)),
      (∀ e2 ∈ ts, (entryTokens e2).isSome = true) →
      ∀ e ∈ ts, ∀ ks k, entryTokens e = some ks → k ∈ ks →
        lookupVar k table = none →
        ∃ u, (runEntries table (fun _ => none) ts disk).error =
            some (EngineError.unresolved u) ∧
          lookupVar u.key table = none ∧
          ∃ e2, e2 ∈ ts ∧ e2.path = u.path ∧
            ∃ ks2, entryTokens e2 = some ks2 ∧ u.key ∈ ks2 := by
  intro ts
  induction ts with
  | nil =>
    intro disk hwell e he
    exact absurd he (List.not_mem_nil e)
  | cons e1 rest ih =>
    intro disk hwell e he ks k hks hk habs
    rcases hse : substituteEntry table e1 with u | r
    · have h1 := hwell e1 (List.mem_cons_self e1 rest)
      rcases Option.isSome_iff_exists.mp h1 with ⟨ks1, hks1⟩
      obtain ⟨hp, hm, hl⟩ := substituteEntry_error_spec hse hks1
      refine ⟨u, ?_, hl, e1, List.mem_cons_self e1 rest, hp.symm, ks1, hks1, hm⟩
      simp only [runEntries, hse]
    · rcases List.mem_cons.mp he with rfl | he2
      · have hpresent := substituteEntry_ok_keys hse hks k hk
        rw [habs] at hpresent
        exact absurd hpresent (by simp)
      · obtain ⟨u, herr, hl, e2, he2m, hpath, ks2, hks2, hm⟩ :=
          ih (disk ++ [(r.path, r.content)])
            (fun e3 h3 => hwell e3 (List.mem_cons_of_mem _ h3)) e he2 ks k hks hk habs
        refine ⟨u, ?_, hl, e2, List.mem_cons_of_mem _ he2m, hpath, ks2, hks2, hm⟩
        simp only [runEntries, hse]
        exact herr

/-- Materializing entries that all succeed before one that fails halts at the
failure: pre entries are written and on disk with their exact content, the
failing entry and reason are reported, and the rest is not attempted. -/
theorem materialize_split (wf : Entry → Option String) :
    ∀ (pre : List Entry) (disk : List (String × String)) (ef : Entry)
      (post : List Entry) (r : String),
      (∀ a ∈ pre, wf a = none) → wf ef = some r →
      materialize wf disk (pre ++ ef :: post) =
        (⟨pre.map Outcome.written ++ [Outcome.failed ef r], some (ef, r)⟩,
         disk ++ pre.map (fun a => (a.path, a.content))) := by
  intro pre
  induction pre with
  | nil =>
    intro disk ef post r hpre hf
    simp only [List.nil_append, materialize, hf]
    simp
  | cons a t ih =>
    intro disk ef post r hpre hf
    have ha : wf a = none := hpre a (List.mem_cons_self a t)
    simp only [List.cons_append, materialize, ha, List.append_eq]
    rw [ih (disk ++ [(a.path, a.content)]) ef post r
      (fun x hx => hpre x (List.mem_cons_of_mem a hx)) hf]
    simp [List.append_assoc]

/-- Counting writes over a written-prefix-plus-failure outcome list. -/
theorem successCount_written_failed :
    ∀ (pre : List Entry) (ef : Entry) (r : String) (fl : Option (Entry × String)),
      successCount ⟨pre.map Outcome.written ++ [Outcome.failed ef r], fl⟩ =
        pre.length := by
  intro pre ef r fl
  induction pre with
  | nil => rfl
  | cons a t ih =>
    simp only [successCount, List.map_cons, List.cons_append, List.filter,
      List.append_eq] at ih ⊢
    simp only [List.length_cons]
    rw [ih]

/-- Counting failures over a written-prefix-plus-failure outcome list. -/
theorem failedCount_written_failed :
    ∀ (pre : List Entry) (ef : Entry) (r : String) (fl : Option (Entry × String)),
      failedCount ⟨pre.map Outcome.written ++ [Outcome.failed ef r], fl⟩ = 1 := by
  intro pre ef r fl
  induction pre with
  | nil => rfl
  | cons a t ih =>
    simp only [failedCount, List.map_cons, List.cons_append, List.filter,
      List.append_eq] at ih ⊢
    exact ih

/-- cpp_exe parse_args on an argument vector whose first help or version flag
is known: a help flag yields the usage text as the error, a version flag the
version text, regardless of surrounding verbose or unknown arguments. -/
theorem parseArgsCppExe_special :
    ∀ (args : List String) (cfg : AppConfig),
      (firstHelpVersion args = some true →
        parseArgsCppExe args cfg = Except.error (usageText cfg.name)) ∧
      (firstHelpVersion args = some false →
        parseArgsCppExe args cfg = Except.error (versionText cfg.name cfg.version)) := by
  intro args
  induction args with
  | nil =>
    intro cfg
    constructor
    · intro h
      exact absurd h (by simp [firstHelpVersion])
    · intro h
      exact absurd h (by simp [firstHelpVersion])
  | cons a rest ih =>
    intro cfg
    by_cases h1 : (a == "--verbose" || a == "-v") = true
    · have hf : firstHelpVersion (a :: rest) = firstHelpVersion rest := by
        rw [firstHelpVersion, if_pos h1]
      have hp : parseArgsCppExe (a :: rest) cfg =
          parseArgsCppExe rest ⟨cfg.name, cfg.version, true⟩ := by
        rw [parseArgsCppExe, if_pos h1]
      rw [hf, hp]
      exact ih ⟨cfg.name, cfg.version, true⟩
    · by_cases h2 : (a == "--help" || a == "-h") = true
      · have hf : firstHelpVersion (a :: rest) = some true := by
          rw [firstHelpVersion, if_neg h1, if_pos h2]
        have hp : parseArgsCppExe (a :: rest) cfg = Except.error (usageText cfg.name) := by
          rw [parseArgsCppExe, if_neg h1, if_pos h2]
        rw [hf, hp]
        exact ⟨fun _ => rfl, fun h => by simp at h⟩
      · by_cases h3 : (a == "--version" || a == "-V") = true
        · have hf : firstHelpVersion (a :: rest) = some false := by
            rw [firstHelpVersion, if_neg h1, if_neg h2, if_pos h3]
          have hp : parseArgsCppExe (a :: rest) cfg =
              Except.error (versionText cfg.name cfg.version) := by
            rw [parseArgsCppExe, if_neg h1, if_neg h2, if_pos h3]
          rw [hf, hp]
          exact ⟨fun h => by simp at h, fun _ => rfl⟩
        · have hf : firstHelpVersion (a :: rest) = firstHelpVersion rest := by
            rw [firstHelpVersion, if_neg h1, if_neg h2, if_neg h3]
          have hp : parseArgsCppExe (a :: rest) cfg = parseArgsCppExe rest cfg := by
            rw [parseArgsCppExe, if_neg h1, if_neg h2, if_neg h3]
          rw [hf, hp]
          exact ih cfg

/-- c_project parse_args stops at the first unknown argument: the arguments
after it are never examined, the unknown-argument error and the usage text
are printed, and RESULT_ERROR is returned. -/
theorem parseArgsC_unknown :
    ∀ (pre : List String) (bad : String) (post : List String) (cfg : CConfig),
      (∀ a ∈ pre, (a == "-v" || a == "--verbose") = true) →
      (bad == "-h" || bad == "--help") = false →
      (bad == "-V" || bad == "--version") = false →
      (bad == "-v" || bad == "--verbose") = false →
      parseArgsC (pre ++ bad :: post) cfg = parseArgsC (pre ++ [bad]) cfg ∧
      ∃ cfg2, parseArgsC (pre ++ bad :: post) cfg =
        (CResult.err, cfg2, cUnknownArgText bad ++ cUsageText) := by
  intro pre
  induction pre with
  | nil =>
    intro bad post cfg hpre hb1 hb2 hb3
    have hstep : ∀ (tl : List String), parseArgsC (bad :: tl) cfg =
        (CResult.err, cfg, cUnknownArgText bad ++ cUsageText) := by
      intro tl
      rw [parseArgsC, if_neg (by simp_all), if_neg (by simp_all), if_neg (by simp_all)]
    simp only [List.nil_append]
    rw [hstep post, hstep []]
    exact ⟨rfl, cfg, rfl⟩
  | cons a t ih =>
    intro bad post cfg hpre hb1 hb2 hb3
    have ha : (a == "-v" || a == "--verbose") = true := hpre a (List.mem_cons_self a t)
    have hah : (a == "-h" || a == "--help") = false := by
      rcases Bool.or_eq_true_iff.mp ha with h | h
      · have he : a = "-v" := by simpa using h
        subst he
        decide
      · have he : a = "--verbose" := by simpa using h
        subst he
        decide
    have hav : (a == "-V" || a == "--version") = false := by
      rcases Bool.or_eq_true_iff.mp ha with h | h
      · have he : a = "-v" := by simpa using h
        subst he
        decide
      · have he : a = "--verbose" := by simpa using h
        subst he
        decide
    have hstep : ∀ (tl : List String), parseArgsC (a :: tl) cfg =
        parseArgsC tl ⟨cfg.name, cfg.version, true, cfg.helpRequested⟩ := by
      intro tl
      rw [parseArgsC, if_neg (by simp [hah]), if_neg (by simp [hav]), if_pos ha]
    simp only [List.cons_append]
    rw [hstep (t ++ bad :: post), hstep (t ++ [bad])]
    exact ih bad post ⟨cfg.name, cfg.version, true, cfg.helpRequested⟩
      (fun x hx => hpre x (List.mem_cons_of_mem a hx)) hb1 hb2 hb3

/-- c_project parse_args on recognized non-help arguments only: RESULT_OK,
nothing printed, and verbose set exactly when a verbose flag appeared. -/
theorem parseArgsC_verbose_only :
    ∀ (args : List String) (cfg : CConfig),
      (∀ a ∈ args, (a == "-v" || a == "--verbose") = true) →
      parseArgsC args cfg =
        (CResult.ok, ⟨cfg.name, cfg.version,
          cfg.verbose || args.any (fun a => a == "-v" || a == "--verbose"),
          cfg.helpRequested⟩, String.mk []) := by
  intro args
  induction args with
  | nil =>
    intro cfg hall
    simp only [parseArgsC, List.any_nil, Bool.or_false]
  | cons a t ih =>
    intro cfg hall
    have ha : (a == "-v" || a == "--verbose") = true := hall a (List.mem_cons_self a t)
    have hah : (a == "-h" || a == "--help") = false := by
      rcases Bool.or_eq_true_iff.mp ha with h | h
      · have he : a = "-v" := by simpa using h
        subst he
        decide
      · have he : a = "--verbose" := by simpa using h
        subst he
        decide
    have hav : (a == "-V" || a == "--version") = false := by
      rcases Bool.or_eq_true_iff.mp ha with h | h
      · have he : a = "-v" := by simpa using h
        subst he
        decide
      · have he : a = "--verbose" := by simpa using h
        subst he
        decide
    rw [parseArgsC, if_neg (by simp [hah]), if_neg (by simp [hav]), if_pos ha,
      ih ⟨cfg.name, cfg.version, true, cfg.helpRequested⟩
        (fun x hx => hall x (List.mem_cons_of_mem a hx))]
    simp [ha]

/-- Token keys of the c_project main.c fixture, scanned line by line. -/
theorem scanLines_mainC :
    scanLines mainCLines = some ["PROJECT_NAME", "PROJECT_NAME"] := by decide

/-- Token keys of the cpp_exe main.cpp fixture, scanned line by line. -/
theorem scanLines_cppExe :
    scanLines cppExeLines = some ["PROJECT_NAME", "PROJECT_NAME"] := by decide

/-- Token keys of the cpp_lib lib.cpp fixture, scanned line by line. -/
theorem scanLines_libCpp :
    scanLines libCppLines = some ["PROJECT_NAME", "PROJECT_NAME"] := by decide

/-- Token keys of the cpp_lib lib.hpp fixture, scanned line by line. -/
theorem scanLines_libHpp :
    scanLines libHppLines = some ["PROJECT_NAME", "PROJECT_NAME_UPPER", "PROJECT_NAME_UPPER", "PROJECT_NAME_UPPER", "PROJECT_NAME_UPPER", "PROJECT_NAME_UPPER", "PROJECT_NAME_UPPER", "PROJECT_NAME_UPPER", "PROJECT_NAME_UPPER", "PROJECT_NAME_UPPER", "PROJECT_NAME_UPPER", "PROJECT_NAME_SNAKE", "PROJECT_NAME_UPPER", "PROJECT_NAME_UPPER", "PROJECT_NAME_UPPER", "PROJECT_NAME_UPPER", "PROJECT_NAME_UPPER", "PROJECT_NAME_UPPER", "PROJECT_NAME_UPPER", "PROJECT_NAME_SNAKE", "PROJECT_NAME_UPPER"] := by decide

/-- Token keys of the whole main.c entry (none in the path, two in the
content). -/
theorem entryTokens_mainC :
    entryTokens mainCEntry = some ["PROJECT_NAME", "PROJECT_NAME"] := by
  have hc : scanTokens mainCEntry.content.toList =
      some ["PROJECT_NAME", "PROJECT_NAME"] :=
    scanTokens_linesChars mainCLines _ scanLines_mainC
  have hp : scanTokens mainCEntry.path.toList = some [] := by decide
  simp only [entryTokens, hc, hp]
  rfl

/-- Token keys of the whole cpp_exe main.cpp entry. -/
theorem entryTokens_cppExe :
    entryTokens cppExeEntry = some ["PROJECT_NAME", "PROJECT_NAME"] := by
  have hc : scanTokens cppExeEntry.content.toList =
      some ["PROJECT_NAME", "PROJECT_NAME"] :=
    scanTokens_linesChars cppExeLines _ scanLines_cppExe
  have hp : scanTokens cppExeEntry.path.toList = some [] := by decide
  simp only [entryTokens, hc, hp]
  rfl

/-- Token keys of the whole lib.cpp entry. -/
theorem entryTokens_libCpp :
    entryTokens libCppEntry = some ["PROJECT_NAME", "PROJECT_NAME"] := by
  have hc : scanTokens libCppEntry.content.toList =
      some ["PROJECT_NAME", "PROJECT_NAME"] :=
    scanTokens_linesChars libCppLines _ scanLines_libCpp
  have hp : scanTokens libCppEntry.path.toList = some [] := by decide
  simp only [entryTokens, hc, hp]
  rfl

/-- Token keys of the whole lib.hpp entry. -/
theorem entryTokens_libHpp :
    entryTokens libHppEntry = some ["PROJECT_NAME", "PROJECT_NAME_UPPER", "PROJECT_NAME_UPPER", "PROJECT_NAME_UPPER", "PROJECT_NAME_UPPER", "PROJECT_NAME_UPPER", "PROJECT_NAME_UPPER", "PROJECT_NAME_UPPER", "PROJECT_NAME_UPPER", "PROJECT_NAME_UPPER", "PROJECT_NAME_UPPER", "PROJECT_NAME_SNAKE", "PROJECT_NAME_UPPER", "PROJECT_NAME_UPPER", "PROJECT_NAME_UPPER", "PROJECT_NAME_UPPER", "PROJECT_NAME_UPPER", "PROJECT_NAME_UPPER", "PROJECT_NAME_UPPER", "PROJECT_NAME_SNAKE", "PROJECT_NAME_UPPER"] := by
  have hc : scanTokens libHppEntry.content.toList = some ["PROJECT_NAME", "PROJECT_NAME_UPPER", "PROJECT_NAME_UPPER", "PROJECT_NAME_UPPER", "PROJECT_NAME_UPPER", "PROJECT_NAME_UPPER", "PROJECT_NAME_UPPER", "PROJECT_NAME_UPPER", "PROJECT_NAME_UPPER", "PROJECT_NAME_UPPER", "PROJECT_NAME_UPPER", "PROJECT_NAME_SNAKE", "PROJECT_NAME_UPPER", "PROJECT_NAME_UPPER", "PROJECT_NAME_UPPER", "PROJECT_NAME_UPPER", "PROJECT_NAME_UPPER", "PROJECT_NAME_UPPER", "PROJECT_NAME_UPPER", "PROJECT_NAME_SNAKE", "PROJECT_NAME_UPPER"] :=
    scanTokens_linesChars libHppLines _ scanLines_libHpp
  have hp : scanTokens libHppEntry.path.toList = some [] := by decide
  simp only [entryTokens, hc, hp]
  rfl

/-- Membership in a concrete list transfers through a decided all-check. -/
theorem mem_of_all_mem {ks rs : List String}
    (h : ks.all (fun k => decide (k ∈ rs)) = true) : ∀ k ∈ ks, k ∈ rs :=
  fun k hk => of_decide_eq_true (List.all_eq_true.mp h k hk)

/-- C1: every placeholder token occurring in the path or content of the four
template fixtures has its key among PROJECT_NAME, PROJECT_NAME_UPPER and
PROJECT_NAME_SNAKE; a VariableTable defining exactly these three names
resolves every token of the fixture set (entry-level substitution succeeds on
each fixture); and each of the three names is referenced literally by at
least one fixture. -/
theorem c1_fixture_tokens (table : List (String × String))
    (htable : table.map Prod.fst = requiredNames) :
    (∀ e ∈ fixtures, ∃ ks, entryTokens e = some ks ∧ ∀ k ∈ ks, k ∈ requiredNames) ∧
    (∀ e ∈ fixtures, ∃ r, substituteEntry table e = Except.ok r) ∧
    (∀ k ∈ requiredNames, ∃ e ∈ fixtures, ∃ ks, entryTokens e = some ks ∧ k ∈ ks) := by
  have hl : ∀ (ks : List String), (∀ k ∈ ks, k ∈ requiredNames) →
      ∀ k ∈ ks, (lookupVar k table).isSome = true := by
    intro ks h k hk
    apply lookupVar_isSome_of_mem
    rw [htable]
    exact h k hk
  refine ⟨?_, ?_, ?_⟩
  · intro e he
    simp only [fixtures, List.mem_cons, List.not_mem_nil, or_false] at he
    rcases he with rfl | rfl | rfl | rfl
    · exact ⟨_, entryTokens_mainC, mem_of_all_mem (by decide)⟩
    · exact ⟨_, entryTokens_cppExe, mem_of_all_mem (by decide)⟩
    · exact ⟨_, entryTokens_libCpp, mem_of_all_mem (by decide)⟩
    · exact ⟨_, entryTokens_libHpp, mem_of_all_mem (by decide)⟩
  · intro e he
    simp only [fixtures, List.mem_cons, List.not_mem_nil, or_false] at he
    rcases he with rfl | rfl | rfl | rfl
    · exact substituteEntry_ok_of_keys entryTokens_mainC
        (hl _ (mem_of_all_mem (by decide)))
    · exact substituteEntry_ok_of_keys entryTokens_cppExe
        (hl _ (mem_of_all_mem (by decide)))
    · exact substituteEntry_ok_of_keys entryTokens_libCpp
        (hl _ (mem_of_all_mem (by decide)))
    · exact substituteEntry_ok_of_keys entryTokens_libHpp
        (hl _ (mem_of_all_mem (by decide)))
  · intro k hk
    simp only [requiredNames, List.mem_cons, List.not_mem_nil, or_false] at hk
    rcases hk with rfl | rfl | rfl
    · exact ⟨mainCEntry, List.mem_cons_self _ _, _, entryTokens_mainC, by decide⟩
    · exact ⟨libHppEntry,
        List.mem_cons_of_mem _ (List.mem_cons_of_mem _
          (List.mem_cons_of_mem _ (List.mem_cons_self _ _))),
        _, entryTokens_libHpp, by decide⟩
    · exact ⟨libHppEntry,
        List.mem_cons_of_mem _ (List.mem_cons_of_mem _
          (List.mem_cons_of_mem _ (List.mem_cons_self _ _))),
        _, entryTokens_libHpp, by decide⟩

/-- Witness for C1 at the concrete table built from the canonical name x. -/
theorem c1_fixture_tokens_witness :
    (∀ e ∈ fixtures, ∃ ks, entryTokens e = some ks ∧ ∀ k ∈ ks, k ∈ requiredNames) ∧
    (∀ e ∈ fixtures, ∃ r, substituteEntry (buildTable ("x")) e = Except.ok r) ∧
    (∀ k ∈ requiredNames, ∃ e ∈ fixtures, ∃ ks, entryTokens e = some ks ∧ k ∈ ks) :=
  c1_fixture_tokens (buildTable ("x")) (by decide)

/-- C2: for every valid canonical name and every template set, write-failure
pattern and starting filesystem, each file the run leaves on the destination
filesystem either predates the run or contains no double opening brace in its
path or content. -/
theorem c2_no_marker_in_output (n : String) (hn : validName n = true)
    (ts : List Entry) (wf : Entry → Option String)
    (disk : List (String × String)) :
    ∀ pc ∈ (run n ts wf disk).disk,
      pc ∈ disk ∨ (hasLL pc.1.toList = false ∧ hasLL pc.2.toList = false) := by
  rw [run, if_pos hn]
  exact runEntries_disk_clean (buildTable n) wf (buildTable_clean hn) ts disk

/-- Witness for C2 on a concrete one-entry template set: the single file the
run produces is free of the double-brace marker. -/
theorem c2_no_marker_in_output_witness :
    (("f.txt", "x") : String × String) ∈ ([] : List (String × String)) ∨
      (hasLL ("f.txt").toList = false ∧ hasLL ("x").toList = false) :=
  c2_no_marker_in_output ("x") (by decide)
    [⟨"f.txt", "\x7b\x7bPROJECT_NAME\x7d\x7d"⟩] (fun _ => none) []
    ("f.txt", "x") (by decide)

/-- C4: the snake_case derivation is a pure function of the canonical name
(the PROJECT_NAME_SNAKE table entry is exactly `deriveSnake` of the name, for
every name), it is case-normalizing on MyApp, and materializing the two
path templates with canonical name MyApp yields exactly my_app.h and
my_app.c. -/
theorem c4_snake_derivation :
    deriveSnake ("MyApp") = "my_app" ∧
    (∀ n : String, lookupVar ("PROJECT_NAME_SNAKE") (buildTable n) =
      some (deriveSnake n)) ∧
    (run ("MyApp")
      [⟨"\x7b\x7bPROJECT_NAME_SNAKE\x7d\x7d.h", ""⟩,
       ⟨"\x7b\x7bPROJECT_NAME_SNAKE\x7d\x7d.c", ""⟩]
      (fun _ => none) []).disk = [("my_app.h", ""), ("my_app.c", "")] := by
  refine ⟨by decide, fun n => rfl, by decide⟩

/-- C5: an invalid canonical name makes the run fail with InvalidNameError
before anything happens: no effect is recorded (no template read, no file
written) and the destination filesystem is returned unchanged. -/
theorem c5_invalid_name_preflight (n : String) (ts : List Entry)
    (wf : Entry → Option String) (disk : List (String × String))
    (h : validName n = false) :
    run n ts wf disk = ⟨[], [], disk, some (EngineError.invalidName n)⟩ := by
  rw [run, if_neg (by simp [h])]

/-- Witness for C5 at the digit-led name 1abc. -/
theorem c5_invalid_name_preflight_witness :
    run ("1abc") [⟨"a.txt", "hello"⟩] (fun _ => none) [("keep.txt", "old")] =
      ⟨[], [], [("keep.txt", "old")], some (EngineError.invalidName ("1abc"))⟩ :=
  c5_invalid_name_preflight ("1abc") [⟨"a.txt", "hello"⟩] (fun _ => none)
    [("keep.txt", "old")] (by decide)

/-- C6: substitution is single-pass and literal — a leading token whose key
is in the table is replaced by the table's value emitted verbatim, and the
pass continues after the token without ever re-scanning the substituted
value, so token text inside a value is not expanded. -/
theorem c6_single_pass_literal (table : List (String × String)) (path : String)
    (k v : String) (rest : List Char)
    (hlk : lookupVar k table = some v) (hrb : rbrace ∉ k.toList) :
    substChars table path (lbrace :: lbrace :: (k.toList ++ rbrace :: rbrace :: rest)) =
      Except.map (fun t => v.toList ++ t) (substChars table path rest) :=
  substChars_token_front table path rest hlk hrb

/-- Witness for C6: the value of K itself contains token text naming a key
absent from the table, and is still emitted verbatim without expansion. -/
theorem c6_single_pass_literal_witness :
    substChars [("K", "\x7b\x7bX\x7d\x7d")] ("p")
        (lbrace :: lbrace :: (("K").toList ++ rbrace :: rbrace :: [])) =
      Except.map (fun t => ("\x7b\x7bX\x7d\x7d").toList ++ t)
        (substChars [("K", "\x7b\x7bX\x7d\x7d")] ("p") []) :=
  c6_single_pass_literal [("K", "\x7b\x7bX\x7d\x7d")] ("p") ("K")
    ("\x7b\x7bX\x7d\x7d") [] (by decide) (by decide)

/-- C3: with a valid name and no write failures, a template set whose entries
are well-formed and one of which references a key absent from the table makes
the run abort with an UnresolvedTokenError naming an absent key and the path
of an entry containing it, and no file produced by the run contains the
literal token marker. -/
theorem c3_unresolved_token (n : String) (hn : validName n = true)
    (ts : List Entry) (disk : List (String × String))
    (hwell : ∀ e2 ∈ ts, (entryTokens e2).isSome = true)
    (e : Entry) (he : e ∈ ts) (ks : List String) (k : String)
    (hks : entryTokens e = some ks) (hk : k ∈ ks)
    (habs : lookupVar k (buildTable n) = none) :
    (∃ u, (run n ts (fun _ => none) disk).error =
        some (EngineError.unresolved u) ∧
      lookupVar u.key (buildTable n) = none ∧
      ∃ e2, e2 ∈ ts ∧ e2.path = u.path ∧
        ∃ ks2, entryTokens e2 = some ks2 ∧ u.key ∈ ks2) ∧
    (∀ pc ∈ (run n ts (fun _ => none) disk).disk,
      pc ∈ disk ∨ (hasLL pc.1.toList = false ∧ hasLL pc.2.toList = false)) := by
  rw [run, if_pos hn]
  exact ⟨runEntries_unresolved (buildTable n) ts disk hwell e he ks k hks hk habs,
    runEntries_disk_clean (buildTable n) _ (buildTable_clean hn) ts disk⟩

/-- Witness for C3 on the spec's UNDEFINED_KEY example. -/
theorem c3_unresolved_token_witness :
    (∃ u, (run ("x") [⟨"f.txt", "\x7b\x7bUNDEFINED_KEY\x7d\x7d"⟩]
          (fun _ => none) []).error = some (EngineError.unresolved u) ∧
      lookupVar u.key (buildTable ("x")) = none ∧
      ∃ e2, e2 ∈ [(⟨"f.txt", "\x7b\x7bUNDEFINED_KEY\x7d\x7d"⟩ : Entry)] ∧
        e2.path = u.path ∧
        ∃ ks2, entryTokens e2 = some ks2 ∧ u.key ∈ ks2) ∧
    (∀ pc ∈ (run ("x") [⟨"f.txt", "\x7b\x7bUNDEFINED_KEY\x7d\x7d"⟩]
        (fun _ => none) []).disk,
      pc ∈ ([] : List (String × String)) ∨
        (hasLL pc.1.toList = false ∧ hasLL pc.2.toList = false)) :=
  c3_unresolved_token ("x") (by decide)
    [⟨"f.txt", "\x7b\x7bUNDEFINED_KEY\x7d\x7d"⟩] [] (by decide)
    ⟨"f.txt", "\x7b\x7bUNDEFINED_KEY\x7d\x7d"⟩ (List.mem_cons_self _ _)
    ["UNDEFINED_KEY"] ("UNDEFINED_KEY") (by decide) (by decide) (by decide)

/-- C7: when the entries before some failing entry all write successfully and
that entry fails, materialization halts there: it reports exactly the
successful prefix as written plus the single failure with its entry and
reason, the prefix files are on disk with their exact paths and contents, the
suffix is not attempted, and the aggregate outcome is not success. -/
theorem c7_halt_on_write_failure (wf : Entry → Option String)
    (disk : List (String × String)) (pre : List Entry) (ef : Entry)
    (post : List Entry) (r : String)
    (hpre : ∀ a ∈ pre, wf a = none) (hf : wf ef = some r) :
    materialize wf disk (pre ++ ef :: post) =
      (⟨pre.map Outcome.written ++ [Outcome.failed ef r], some (ef, r)⟩,
       disk ++ pre.map (fun a => (a.path, a.content))) ∧
    successCount (materialize wf disk (pre ++ ef :: post)).1 = pre.length ∧
    failedCount (materialize wf disk (pre ++ ef :: post)).1 = 1 ∧
    (materialize wf disk (pre ++ ef :: post)).1.isSuccess = false := by
  have h := materialize_split wf pre disk ef post r hpre hf
  refine ⟨h, ?_, ?_, ?_⟩
  · rw [h]
    exact successCount_written_failed pre ef r _
  · rw [h]
    exact failedCount_written_failed pre ef r _
  · rw [h]
    rfl

/-- Witness for C7: two writable entries, then a simulated disk-full failure,
then one never-attempted entry. -/
theorem c7_halt_on_write_failure_witness :
    materialize (fun e => if e.path == "bad" then some ("disk full") else none)
        [] ([⟨"a", "1"⟩, ⟨"b", "2"⟩] ++ ⟨"bad", "3"⟩ :: [⟨"c", "4"⟩]) =
      (⟨[⟨"a", "1"⟩, ⟨"b", "2"⟩].map Outcome.written ++
          [Outcome.failed ⟨"bad", "3"⟩ ("disk full")],
        some (⟨"bad", "3"⟩, "disk full")⟩,
       [] ++ [⟨"a", "1"⟩, (⟨"b", "2"⟩ : Entry)].map (fun a => (a.path, a.content))) ∧
    successCount (materialize (fun e => if e.path == "bad" then some ("disk full") else none)
        [] ([⟨"a", "1"⟩, ⟨"b", "2"⟩] ++ ⟨"bad", "3"⟩ :: [⟨"c", "4"⟩])).1 = 2 ∧
    failedCount (materialize (fun e => if e.path == "bad" then some ("disk full") else none)
        [] ([⟨"a", "1"⟩, ⟨"b", "2"⟩] ++ ⟨"bad", "3"⟩ :: [⟨"c", "4"⟩])).1 = 1 ∧
    (materialize (fun e => if e.path == "bad" then some ("disk full") else none)
        [] ([⟨"a", "1"⟩, ⟨"b", "2"⟩] ++ ⟨"bad", "3"⟩ :: [⟨"c", "4"⟩])).1.isSuccess = false :=
  c7_halt_on_write_failure
    (fun e => if e.path == "bad" then some ("disk full") else none) []
    [⟨"a", "1"⟩, ⟨"b", "2"⟩] ⟨"bad", "3"⟩ [⟨"c", "4"⟩] ("disk full")
    (by decide) (by decide)

/-- C8: the cpp_lib header fixture opens namespace PROJECT_NAME_SNAKE at line
36 while the source fixture opens namespace PROJECT_NAME at line 4, and for
every canonical name whose snake derivation differs from the name itself,
substituting the two namespace lines yields two different namespace
declarations. -/
theorem c8_namespace_mismatch :
    libHppLines.getD 35 ("") = "namespace \x7b\x7bPROJECT_NAME_SNAKE\x7d\x7d \x7b" ∧
    libCppLines.getD 3 ("") = "namespace \x7b\x7bPROJECT_NAME\x7d\x7d \x7b" ∧
    ∀ n path : String,
      substChars (buildTable n) path
          (("namespace \x7b\x7bPROJECT_NAME_SNAKE\x7d\x7d \x7b").toList) =
        Except.ok (("namespace " ++ deriveSnake n ++ " \x7b").toList) ∧
      substChars (buildTable n) path
          (("namespace \x7b\x7bPROJECT_NAME\x7d\x7d \x7b").toList) =
        Except.ok (("namespace " ++ n ++ " \x7b").toList) ∧
      (deriveSnake n ≠ n →
        "namespace " ++ deriveSnake n ++ " \x7b" ≠ "namespace " ++ n ++ " \x7b") := by
  have htl : ∀ a b : String, (a ++ b).toList = a.toList ++ b.toList :=
    fun a b => String.data_append a b
  have hsp : ∀ (table : List (String × String)) (path : String),
      substChars table path ((' ') :: lbrace :: []) =
        Except.ok ((' ') :: lbrace :: []) := by
    intro table path
    rw [substChars_copy table path [] (by decide), substChars_single]
    rfl
  have hclean : ∀ ch ∈ ("namespace ").toList, ch ≠ lbrace := by decide
  refine ⟨by decide, by decide, ?_⟩
  intro n path
  have hline1 : substChars (buildTable n) path
      (("namespace \x7b\x7bPROJECT_NAME_SNAKE\x7d\x7d \x7b").toList) =
      Except.ok (("namespace " ++ deriveSnake n ++ " \x7b").toList) := by
    have hdecomp : ("namespace \x7b\x7bPROJECT_NAME_SNAKE\x7d\x7d \x7b").toList =
        ("namespace ").toList ++ (lbrace :: lbrace ::
          (("PROJECT_NAME_SNAKE").toList ++
            rbrace :: rbrace :: ((' ') :: lbrace :: []))) := by decide
    have hlk : lookupVar ("PROJECT_NAME_SNAKE") (buildTable n) =
        some (deriveSnake n) := rfl
    rw [hdecomp, substChars_append_clean _ _ _ _ hclean,
      substChars_token_front _ _ _ hlk (by decide), hsp]
    rw [show ("namespace " ++ deriveSnake n ++ " \x7b").toList =
      ("namespace ").toList ++ ((deriveSnake n).toList ++ ((' ') :: lbrace :: []))
      from by rw [htl, htl, List.append_assoc]; rfl]
    rfl
  have hline2 : substChars (buildTable n) path
      (("namespace \x7b\x7bPROJECT_NAME\x7d\x7d \x7b").toList) =
      Except.ok (("namespace " ++ n ++ " \x7b").toList) := by
    have hdecomp : ("namespace \x7b\x7bPROJECT_NAME\x7d\x7d \x7b").toList =
        ("namespace ").toList ++ (lbrace :: lbrace ::
          (("PROJECT_NAME").toList ++
            rbrace :: rbrace :: ((' ') :: lbrace :: []))) := by decide
    have hlk : lookupVar ("PROJECT_NAME") (buildTable n) = some n := rfl
    rw [hdecomp, substChars_append_clean _ _ _ _ hclean,
      substChars_token_front _ _ _ hlk (by decide), hsp]
    rw [show ("namespace " ++ n ++ " \x7b").toList =
      ("namespace ").toList ++ (n.toList ++ ((' ') :: lbrace :: []))
      from by rw [htl, htl, List.append_assoc]; rfl]
    rfl
  refine ⟨hline1, hline2, ?_⟩
  intro hne hcontra
  apply hne
  have h2 := congrArg String.toList hcontra
  rw [htl, htl, htl, htl] at h2
  exact string_toList_inj _ _
    (List.append_cancel_left (List.append_cancel_right h2))

/-- Witness for C8 at the canonical name MyApp: the substituted header
namespace is my_app while the substituted source namespace is MyApp. -/
theorem c8_namespace_mismatch_witness :
    substChars (buildTable ("MyApp")) ("include/lib.hpp")
        (("namespace \x7b\x7bPROJECT_NAME_SNAKE\x7d\x7d \x7b").toList) =
      Except.ok (("namespace " ++ deriveSnake ("MyApp") ++ " \x7b").toList) ∧
    substChars (buildTable ("MyApp")) ("src/lib.cpp")
        (("namespace \x7b\x7bPROJECT_NAME\x7d\x7d \x7b").toList) =
      Except.ok (("namespace " ++ ("MyApp") ++ " \x7b").toList) ∧
    "namespace " ++ deriveSnake ("MyApp") ++ " \x7b" ≠
      "namespace " ++ ("MyApp") ++ " \x7b" :=
  ⟨(c8_namespace_mismatch.2.2 ("MyApp") ("include/lib.hpp")).1,
   (c8_namespace_mismatch.2.2 ("MyApp") ("src/lib.cpp")).2.1,
   (c8_namespace_mismatch.2.2 ("MyApp") ("p")).2.2 (by decide)⟩

/-- C9: cpp_exe main exits 1 exactly when the parse_args error contains
"Usage:" (and 0 for any other parse_args error), so an argument vector whose
first help or version flag is a help flag prints the usage text and exits 1,
and one whose first such flag is a version flag prints the version text and
exits 0. -/
theorem c9_exit_status (args : List String) :
    (∀ e, parseArgsCppExe args defaultAppConfig = Except.error e →
      mainCppExe args = ((if containsSub e ("Usage:") then 1 else 0), e)) ∧
    (firstHelpVersion args = some true →
      mainCppExe args = (1, usageText cppExeName)) ∧
    (firstHelpVersion args = some false →
      mainCppExe args = (0, versionText cppExeName cppExeVersion)) := by
  refine ⟨?_, ?_, ?_⟩
  · intro e he
    simp only [mainCppExe, he]
  · intro h
    have hp := (parseArgsCppExe_special args defaultAppConfig).1 h
    simp only [mainCppExe, hp]
    decide
  · intro h
    have hp := (parseArgsCppExe_special args defaultAppConfig).2 h
    simp only [mainCppExe, hp]
    decide

/-- Witness for C9: help after a verbose flag exits 1 with the usage text; a
version flag before a help flag exits 0 with the version text. -/
theorem c9_exit_status_witness :
    mainCppExe ["-v", "--help"] = (1, usageText cppExeName) ∧
    mainCppExe ["--version", "--help"] = (0, versionText cppExeName cppExeVersion) :=
  ⟨(c9_exit_status ["-v", "--help"]).2.1 (by decide),
   (c9_exit_status ["--version", "--help"]).2.2 (by decide)⟩

/-- C10: c_project parse_args stops at the first unknown argument (later
arguments are never examined), prints the unknown-argument error plus the
usage text and returns RESULT_ERROR, after which main exits EXIT_FAILURE;
and when every argument is a verbose flag (recognized, neither help nor
version), parse_args returns RESULT_OK with verbose set exactly when such a
flag appeared, and main exits EXIT_SUCCESS. -/
theorem c10_c_argument_parsing :
    (∀ (pre : List String) (bad : String) (post : List String),
      (∀ a ∈ pre, (a == "-v" || a == "--verbose") = true) →
      bad ∉ ["-h", "--help", "-V", "--version", "-v", "--verbose"] →
      parseArgsC (pre ++ bad :: post) cDefaultConfig =
          parseArgsC (pre ++ [bad]) cDefaultConfig ∧
      (∃ cfg2, parseArgsC (pre ++ bad :: post) cDefaultConfig =
          (CResult.err, cfg2, cUnknownArgText bad ++ cUsageText)) ∧
      (mainC (pre ++ bad :: post)).1 = 1) ∧
    (∀ args : List String,
      (∀ a ∈ args, (a == "-v" || a == "--verbose") = true) →
      parseArgsC args cDefaultConfig =
        (CResult.ok, ⟨cAppName, cAppVersion,
          args.any (fun a => a == "-v" || a == "--verbose"), false⟩, String.mk []) ∧
      (mainC args).1 = 0) := by
  constructor
  · intro pre bad post hpre hbad
    simp only [List.mem_cons, List.not_mem_nil, or_false, not_or] at hbad
    obtain ⟨n1, n2, n3, n4, n5, n6⟩ := hbad
    have hb1 : (bad == "-h" || bad == "--help") = false := by
      rw [Bool.or_eq_false_iff]
      exact ⟨beq_eq_false_iff_ne.mpr n1, beq_eq_false_iff_ne.mpr n2⟩
    have hb2 : (bad == "-V" || bad == "--version") = false := by
      rw [Bool.or_eq_false_iff]
      exact ⟨beq_eq_false_iff_ne.mpr n3, beq_eq_false_iff_ne.mpr n4⟩
    have hb3 : (bad == "-v" || bad == "--verbose") = false := by
      rw [Bool.or_eq_false_iff]
      exact ⟨beq_eq_false_iff_ne.mpr n5, beq_eq_false_iff_ne.mpr n6⟩
    obtain ⟨hindep, cfg2, herr⟩ :=
      parseArgsC_unknown pre bad post cDefaultConfig hpre hb1 hb2 hb3
    refine ⟨hindep, ⟨cfg2, herr⟩, ?_⟩
    simp only [mainC, herr]
  · intro args hall
    have hp := parseArgsC_verbose_only args cDefaultConfig hall
    constructor
    · rw [hp]
      rfl
    · rw [mainC, hp]

/-- Witness for C10: a verbose flag, an unknown --bogus, and a trailing
argument exit 1; two verbose flags alone exit 0 with verbose set. -/
theorem c10_c_argument_parsing_witness :
    (mainC (["-v"] ++ "--bogus" :: ["zzz"])).1 = 1 ∧
    parseArgsC ["-v", "-v"] cDefaultConfig =
      (CResult.ok, ⟨cAppName, cAppVersion, true, false⟩, String.mk []) ∧
    (mainC ["-v", "-v"]).1 = 0 :=
  ⟨((c10_c_argument_parsing.1 ["-v"] ("--bogus") ["zzz"]
      (by decide) (by decide)).2.2),
   (c10_c_argument_parsing.2 ["-v", "-v"] (by decide)).1,
   (c10_c_argument_parsing.2 ["-v", "-v"] (by decide)).2⟩

end Ovo
